import Mathlib

/-!
Verification development for the ida-themr color/template engine.

This file gives a shallow embedding, in Lean 4, of the color model, the
JSONC comment stripper, the theme remapping engine (src/ida_themr.py) and
the template variable expander (src/var_expander.py), together with
theorems about the embedded functions.

Modelling conventions:
* Python floats are modelled as exact rationals.  All arithmetic performed
  by the embedded code (channel scaling, HSL conversion, lighten and
  darken) is exact in the rationals it manipulates, so no rounding model
  is needed; the built-in truncation of the Python int() conversion is
  modelled explicitly by pyInt.
* Python dicts are insertion-ordered association lists: an update of an
  existing key keeps its position, a new key is appended at the end, and
  iteration order is list order.  This matches the dict semantics the
  source relies on (next(iter(d)) is the first inserted key).
* Loops that can run forever (the variable resolution loops of
  var_expander.py, and the recursion of remap_color_rgb) are embedded with
  an explicit fuel argument; the value none means the fuel ran out before
  the loop returned.
* The source computes distances with math.sqrt only to compare them, and
  the square root is strictly monotone on nonnegative inputs, so the
  nearest-neighbour scan is embedded with squared distances; the argmin
  and every comparison outcome are unchanged.
* Regular expressions of the source are compiled by hand into scanners
  over character lists that implement the exact matching semantics of the
  concrete patterns (leftmost match, greedy character classes, lazy
  quantifiers stopping at the first viable end).  The inputs are ASCII, so
  the ASCII reading of the classes backslash-s and dot is faithful.
-/

attribute [local semireducible] Rat.add Rat.mul Rat.sub Rat.inv

/-- Truncation toward zero of a rational, the semantics of the Python
int() conversion applied to a float. -/
def pyInt (q : ℚ) : ℤ := if 0 ≤ q then ⌊q⌋ else ⌈q⌉

/-- Computable floor used by the embedding (num and den of a normalised
rational, with integer floor division). -/
def ratFloor (q : ℚ) : ℤ := q.num / q.den

/-- Fractional part, the semantics of the Python expression x % 1.0. -/
def pyMod1 (q : ℚ) : ℚ := q - ratFloor q

/-- Bitwise and with 0xFF on a Python int, which for any sign equals the
mathematical remainder modulo 256. -/
def band255 (n : ℤ) : ℤ := n % 256

/-- Uppercase hexadecimal digit for a value below 16. -/
def hexDigitChar (n : ℕ) : Char :=
  if n < 10 then Char.ofNat (48 + n) else Char.ofNat (55 + n)

/-- Two-digit uppercase hexadecimal rendering of a byte, the semantics of
the Python format specifier 02X on a value in [0, 256). -/
def byteHex (n : ℤ) : String :=
  String.mk [hexDigitChar (n.toNat / 16), hexDigitChar (n.toNat % 16)]

/-- ASCII whitespace, the characters matched by the Python regex class
backslash-s and stripped by str.strip on ASCII input. -/
def isSpaceChar (c : Char) : Bool :=
  c = ' ' || c = '\t' || c = '\n' || c = '\r' || c = '\x0b' || c = '\x0c'

/-- Python str.strip on a character list. -/
def stripChars (cs : List Char) : List Char :=
  ((cs.dropWhile isSpaceChar).reverse.dropWhile isSpaceChar).reverse

/-- Python str.rstrip on a character list. -/
def rstripChars (cs : List Char) : List Char :=
  (cs.reverse.dropWhile isSpaceChar).reverse

/-- Python str.strip. -/
def pyStrip (s : String) : String := String.mk (stripChars s.data)

/-- ASCII lowercase conversion, Python str.lower on ASCII input. -/
def lowerChar (c : Char) : Char :=
  if 'A' ≤ c ∧ c ≤ 'Z' then Char.ofNat (c.toNat + 32) else c

/-- Python str.lower. -/
def pyLower (s : String) : String := String.mk (s.data.map lowerChar)

/-- Lookup in an insertion-ordered association list, Python dict
subscript and dict.get. -/
def dictGet {α β : Type} [DecidableEq α] : List (α × β) → α → Option β
  | [], _ => none
  | (k, v) :: rest, a => if k = a then some v else dictGet rest a

/-- Assignment in an insertion-ordered association list: an existing key
is updated in place, a new key is appended, Python dict assignment. -/
def dictInsert {α β : Type} [DecidableEq α] : List (α × β) → α → β → List (α × β)
  | [], a, b => [(a, b)]
  | (k, v) :: rest, a, b =>
      if k = a then (k, b) :: rest else (k, v) :: dictInsert rest a b

/-- The Python idiom d.setdefault(key, []).append(x) on an
insertion-ordered association list of lists. -/
def dictSetdefaultAppend {α β : Type} [DecidableEq α] :
    List (α × List β) → α → β → List (α × List β)
  | [], a, b => [(a, [b])]
  | (k, v) :: rest, a, b =>
      if k = a then (k, v ++ [b]) :: rest else (k, v) :: dictSetdefaultAppend rest a b

/-- Python list.index restricted to present elements (the source only
calls it on members; on an absent element this total model returns the
length where Python would raise ValueError, a case the source never
reaches). -/
def pyIndex : List String → String → ℕ
  | [], _ => 0
  | x :: rest, a => if x = a then 0 else pyIndex rest a + 1

-- ---------------------------------------------------------------------------
-- ColorModel: RGB and RGBA value types (src/ida_themr.py)
-- ---------------------------------------------------------------------------

/-- RGB color with normalised rational channels, embedding the RGB
NamedTuple of src/ida_themr.py. -/
structure RGB where
  r : ℚ
  g : ℚ
  b : ℚ
deriving DecidableEq

/-- RGBA color, an RGB plus an alpha, embedding the RGBA dataclass of
src/ida_themr.py. -/
structure RGBA where
  rgb : RGB
  alpha : ℚ
deriving DecidableEq

-- ---------------------------------------------------------------------------
-- colorsys.rgb_to_hls / hls_to_rgb (CPython standard library, called by
-- RGB.Hsl and RGB.from_hsl of src/ida_themr.py)
-- ---------------------------------------------------------------------------

/-- Branchwise linear interpolation helper, embedding the CPython
colorsys function with the one-letter name v. -/
def hlsV (m1 m2 hue : ℚ) : ℚ :=
  let hue := pyMod1 hue
  if hue < 1/6 then m1 + (m2 - m1) * hue * 6
  else if hue < 1/2 then m2
  else if hue < 2/3 then m1 + (m2 - m1) * (2/3 - hue) * 6
  else m1

/-- CPython colorsys.rgb_to_hls, returning the triple (h, l, s). -/
def rgb_to_hls (r g b : ℚ) : ℚ × ℚ × ℚ :=
  let maxc := max r (max g b)
  let minc := min r (min g b)
  let l := (minc + maxc) / 2
  if minc = maxc then (0, l, 0)
  else
    let delta := maxc - minc
    let s := if l ≤ 1/2 then delta / (maxc + minc) else delta / (2 - maxc - minc)
    let rc := (maxc - r) / delta
    let gc := (maxc - g) / delta
    let bc := (maxc - b) / delta
    let h0 := if r = maxc then bc - gc
              else if g = maxc then 2 + rc - bc
              else 4 + gc - rc
    (pyMod1 (h0 / 6), l, s)

/-- CPython colorsys.hls_to_rgb, returning the triple (r, g, b). -/
def hls_to_rgb (h l s : ℚ) : ℚ × ℚ × ℚ :=
  if s = 0 then (l, l, l)
  else
    let m2 := if l ≤ 1/2 then l * (1 + s) else l + s - l * s
    let m1 := 2 * l - m2
    (hlsV m1 m2 (h + 1/3), hlsV m1 m2 h, hlsV m1 m2 (h - 1/3))

/-- RGB.Hsl of src/ida_themr.py: convert to HSL, returning (h, s, l). -/
def RGB.Hsl (c : RGB) : ℚ × ℚ × ℚ :=
  let hls := rgb_to_hls c.r c.g c.b
  (hls.1, hls.2.2, hls.2.1)

/-- RGB.from_hsl of src/ida_themr.py: convert HSL to RGB. -/
def RGB.from_hsl (h s l : ℚ) : RGB :=
  let rgb := hls_to_rgb h l s
  ⟨rgb.1, rgb.2.1, rgb.2.2⟩

-- ---------------------------------------------------------------------------
-- Hex parsing (src/ida_themr.py)
-- ---------------------------------------------------------------------------

/-- u4parse of src/ida_themr.py on a character code: a single hex digit
to its value; the ValueError raise is the value none. -/
def u4parse (byteVal : ℕ) : Option ℕ :=
  if 0x30 ≤ byteVal ∧ byteVal ≤ 0x39 then some (byteVal - 0x30)
  else if 0x41 ≤ byteVal ∧ byteVal ≤ 0x46 then some (byteVal - 0x41 + 10)
  else if 0x61 ≤ byteVal ∧ byteVal ≤ 0x66 then some (byteVal - 0x61 + 10)
  else none

/-- u8parse of src/ida_themr.py: two hex digits, big-endian, to a byte. -/
def u8parse (hi lo : ℕ) : Option ℕ :=
  match u4parse hi, u4parse lo with
  | some h, some l => some (h * 16 + l)
  | _, _ => none

/-- u8vparse of src/ida_themr.py on the character list of its input,
which the caller has validated to be # followed by 6 or 8 hex digits. -/
def u8vparse : List Char → Option (ℕ × ℕ × ℕ × ℕ)
  | ['#', r1, r2, g1, g2, b1, b2] =>
      match u8parse r1.toNat r2.toNat, u8parse g1.toNat g2.toNat,
            u8parse b1.toNat b2.toNat with
      | some r, some g, some b => some (r, g, b, 0xFF)
      | _, _, _ => none
  | ['#', r1, r2, g1, g2, b1, b2, a1, a2] =>
      match u8parse r1.toNat r2.toNat, u8parse g1.toNat g2.toNat,
            u8parse b1.toNat b2.toNat, u8parse a1.toNat a2.toNat with
      | some r, some g, some b, some a => some (r, g, b, a)
      | _, _, _, _ => none
  | _ => none

/-- u4vparse of src/ida_themr.py on the character list of its input:
every nibble is expanded by duplication, multiplying by 0x11. -/
def u4vparse : List Char → Option (ℕ × ℕ × ℕ × ℕ)
  | ['#', c1, c2, c3] =>
      match u4parse c1.toNat, u4parse c2.toNat, u4parse c3.toNat with
      | some r, some g, some b => some (r * 0x11, g * 0x11, b * 0x11, 0xFF)
      | _, _, _ => none
  | ['#', c1, c2, c3, c4] =>
      match u4parse c1.toNat, u4parse c2.toNat, u4parse c3.toNat, u4parse c4.toNat with
      | some r, some g, some b, some a => some (r * 0x11, g * 0x11, b * 0x11, a * 0x11)
      | _, _, _, _ => none
  | _ => none

/-- Membership in the Python regex class [0-9A-Fa-f]. -/
def isHexDigit (c : Char) : Bool :=
  decide ((0x30 ≤ c.toNat ∧ c.toNat ≤ 0x39) ∨ (0x41 ≤ c.toNat ∧ c.toNat ≤ 0x46) ∨
    (0x61 ≤ c.toNat ∧ c.toNat ≤ 0x66))

/-- The fullmatch test of new_css_color against the pattern accepting a
hash followed by 3, 4, 6 or 8 hex digits. -/
def cssHexMatch : List Char → Bool
  | '#' :: rest =>
      rest.all isHexDigit &&
        (rest.length = 3 || rest.length = 4 || rest.length = 6 || rest.length = 8)
  | _ => false

/-- new_css_color of src/ida_themr.py: strip, validate against the hex
pattern, dispatch on length, scale to rational channels; the ValueError
raise is the value none. -/
def new_css_color (hexStr : String) : Option RGBA :=
  let cs := stripChars hexStr.data
  if cssHexMatch cs then
    match (if cs.length = 4 ∨ cs.length = 5 then u4vparse cs else u8vparse cs) with
    | some (r8, g8, b8, a8) =>
        some ⟨⟨(r8 : ℚ) / 255, (g8 : ℚ) / 255, (b8 : ℚ) / 255⟩, (a8 : ℚ) / 255⟩
    | none => none
  else none

-- ---------------------------------------------------------------------------
-- Hex serialization (src/ida_themr.py)
-- ---------------------------------------------------------------------------

/-- rgb_to_hex of src/ida_themr.py: int truncation of each scaled
channel, masked to a byte, rendered as two uppercase hex digits. -/
def rgb_to_hex (c : RGB) : String :=
  "#" ++ byteHex (band255 (pyInt (c.r * 255)))
      ++ byteHex (band255 (pyInt (c.g * 255)))
      ++ byteHex (band255 (pyInt (c.b * 255)))

/-- RGBA.to_css_rgb of src/ida_themr.py. -/
def RGBA.to_css_rgb (x : RGBA) : String := rgb_to_hex x.rgb

/-- RGBA.to_css_rgba of src/ida_themr.py: the 6-digit form when alpha is
at least 254/255, otherwise the alpha byte is appended. -/
def RGBA.to_css_rgba (x : RGBA) : String :=
  if 254/255 ≤ x.alpha then rgb_to_hex x.rgb
  else rgb_to_hex x.rgb ++ byteHex (band255 (pyInt (x.alpha * 255)))

/-- Squared Euclidean RGB distance.  RGBA.distance of src/ida_themr.py
is the square root of this quantity; the square root is strictly
monotone on nonnegative inputs and the source only ever compares
distances, so the squared form decides every comparison identically. -/
def distanceSq (a other : RGBA) : ℚ :=
  let dr := a.rgb.r - other.rgb.r
  let dg := a.rgb.g - other.rgb.g
  let db := a.rgb.b - other.rgb.b
  dr * dr + dg * dg + db * db

/-- Modelled from the spec: RGB.lighten is called by the tests and by
src/var_expander.py but its definition is not among the sources; the
spec prescribes: convert to HSL, move lightness toward 1.0 by the
amount, clamp to [0, 1], convert back, with a fully opaque result. -/
def RGB.lighten (c : RGB) (amount : ℚ) : RGBA :=
  let hsl := c.Hsl
  ⟨RGB.from_hsl hsl.1 hsl.2.1 (max 0 (min 1 (hsl.2.2 + amount))), 1⟩

/-- Modelled from the spec: RGB.darken, the mirror of RGB.lighten,
moving lightness toward 0.0 by the amount. -/
def RGB.darken (c : RGB) (amount : ℚ) : RGBA :=
  let hsl := c.Hsl
  ⟨RGB.from_hsl hsl.1 hsl.2.1 (max 0 (min 1 (hsl.2.2 - amount))), 1⟩

-- ---------------------------------------------------------------------------
-- strip_jsonc_comments (src/ida_themr.py)
-- ---------------------------------------------------------------------------

/-- The four states of the comment stripping machine of
src/ida_themr.py. -/
inductive State where
  | CODE
  | SINGLE_COMMENT
  | MULTI_COMMENT
  | STRING
deriving DecidableEq

/-- One pass of the strip_jsonc_comments while loop, written as a
recursion over the remaining input; each step consumes the characters
the loop body consumes (one, or two where the body calls consume on the
peeked character) and emits the characters the body appends. -/
def stripGo (preserve : Bool) : State → List Char → List Char
  | _, [] => []
  | State.CODE, '"' :: rest => '"' :: stripGo preserve State.STRING rest
  | State.CODE, '/' :: '/' :: rest2 => stripGo preserve State.SINGLE_COMMENT rest2
  | State.CODE, '/' :: '*' :: rest2 => stripGo preserve State.MULTI_COMMENT rest2
  | State.CODE, c :: rest => c :: stripGo preserve State.CODE rest
  | State.SINGLE_COMMENT, '{' :: rest => '{' :: stripGo preserve State.CODE rest
  | State.SINGLE_COMMENT, '}' :: rest => '}' :: stripGo preserve State.CODE rest
  | State.SINGLE_COMMENT, '\\' :: 'n' :: rest2 =>
      -- When preserve is false the guard fails and the machine discards the
      -- backslash; the next iteration then discards the n, which is not a
      -- brace and not a backslash.  The two discard steps are fused here to
      -- keep the recursion structural.
      if preserve then '\\' :: 'n' :: stripGo preserve State.SINGLE_COMMENT rest2
      else stripGo preserve State.SINGLE_COMMENT rest2
  | State.SINGLE_COMMENT, '\\' :: 'r' :: rest2 =>
      if preserve then '\\' :: 'r' :: stripGo preserve State.SINGLE_COMMENT rest2
      else stripGo preserve State.SINGLE_COMMENT rest2
  | State.SINGLE_COMMENT, _ :: rest => stripGo preserve State.SINGLE_COMMENT rest
  | State.MULTI_COMMENT, '*' :: '/' :: rest2 => stripGo preserve State.CODE rest2
  | State.MULTI_COMMENT, _ :: rest => stripGo preserve State.MULTI_COMMENT rest
  | State.STRING, '\\' :: p :: rest2 => '\\' :: p :: stripGo preserve State.STRING rest2
  | State.STRING, ['\\'] => ['\\']
  | State.STRING, '"' :: rest => '"' :: stripGo preserve State.CODE rest
  | State.STRING, c :: rest => c :: stripGo preserve State.STRING rest

/-- strip_jsonc_comments of src/ida_themr.py. -/
def strip_jsonc_comments (jsoncString : String) (preserveNewlines : Bool) :
    String :=
  String.mk (stripGo preserveNewlines State.CODE jsoncString.data)

-- ---------------------------------------------------------------------------
-- Instance and color remapping (src/ida_themr.py)
-- ---------------------------------------------------------------------------

/-- Instance of src/ida_themr.py: the per-theme color map and the
reverse index from RGB value to the keys that produced it.  The data
field of the Python dataclass carries the raw document and is never read
by the remapping code, so it is omitted here. -/
structure Instance where
  colors : List (String × RGBA)
  inverted_colors : List (RGB × List String)
deriving DecidableEq

/-- Instance.add_color of src/ida_themr.py: parse the hex text; on
failure return unchanged (the exception is swallowed); on success store
the color under the key and append the key to the reverse index list of
the RGB value. -/
def Instance.add_color (self : Instance) (key : String) (hexStr : String) : Instance :=
  match new_css_color hexStr with
  | none => self
  | some col =>
      { colors := dictInsert self.colors key col
        inverted_colors := dictSetdefaultAppend self.inverted_colors col.rgb key }

/-- The Instance with empty maps. -/
def emptyInstance : Instance := ⟨[], []⟩

/-- A sequence of add_color calls, folded left in call order. -/
def addColors (inst : Instance) (calls : List (String × String)) : Instance :=
  calls.foldl (fun i c => i.add_color c.1 c.2) inst

/-- three_way_adjustment of src/ida_themr.py. -/
def three_way_adjustment (src dst remapped : RGB) : RGB :=
  let t1 := src.Hsl
  let t2 := dst.Hsl
  let t := remapped.Hsl
  let h := t.1
  let s := t.2.1
  let l := t.2.2
  let s12 := if s < t1.2.1 then (t2.2.1, t1.2.1) else (t1.2.1, t2.2.1)
  let l12 := if l < t1.2.2 then (t2.2.2, t1.2.2) else (t1.2.2, t2.2.2)
  let s := s + (s12.2 - s12.1) * (1/4)
  let l := l + (l12.2 - l12.1) * (1/4)
  let s := max 0 (min 1 s)
  let l := max 0 (min 1 l)
  RGB.from_hsl h s l

/-- The nearest-neighbour scan of remap_color_rgb: iterate over the
candidate colors keeping the first candidate strictly closer than the
best so far; the initial best distance math.inf is the value none.
Distances are compared in squared form (see distanceSq). -/
def nnLoop : List RGB → RGB → RGB → Option ℚ → RGB
  | [], _, closest, _ => closest
  | c :: rest, col, closest, minD =>
      let d := distanceSq ⟨c, 1⟩ ⟨col, 1⟩
      match minD with
      | none => nnLoop rest col c (some d)
      | some m => if d < m then nnLoop rest col c (some d)
                  else nnLoop rest col closest minD

/-- The closest stored color of the else branch of remap_color_rgb:
next(iter(...)) on an empty index raises StopIteration, the value
none. -/
def nearest_stored (inv : List (RGB × List String)) (col : RGB) : Option RGB :=
  match inv with
  | [] => none
  | (c0, _) :: _ => some (nnLoop (inv.map Prod.fst) col c0 none)

/-- The options dict of remap_color_rgb: for every key sharing the
queried color, the color the other instance gives that key, grouped by
RGB value in encounter order. -/
def buildOptions (other : Instance) (keys : List String) : List (RGB × List String) :=
  keys.foldl
    (fun opts key =>
      match dictGet other.colors key with
      | some cand => dictSetdefaultAppend opts cand.rgb key
      | none => opts)
    []

/-- The selection loop of remap_color_rgb over the options dict: the
group with strictly more names than the best so far wins, ties keep the
earlier group; the initial best is the first key with an empty name
list. -/
def bestLoop : List (RGB × List String) → RGB → List String → RGB
  | [], best, _ => best
  | (rgbVal, names) :: rest, best, bestKeys =>
      if bestKeys.length < names.length then bestLoop rest rgbVal names
      else bestLoop rest best bestKeys

/-- Instance.remap_color_rgb of src/ida_themr.py, with explicit fuel
bounding the recursion depth (none means the fuel ran out, or that
next(iter(...)) raised on an empty reverse index).  The internal flag of
the source is carried but, as in the source, never read. -/
def remap_color_rgb : ℕ → Instance → RGB → Instance → Bool → Option RGB
  | 0, _, _, _, _ => none
  | Nat.succ fuel, self, col, other, _internal =>
      match dictGet self.inverted_colors col with
      | some keys =>
          match buildOptions other keys with
          | [] => some col
          | (r0, ns0) :: rest => some (bestLoop ((r0, ns0) :: rest) r0 [])
      | none =>
          match nearest_stored self.inverted_colors col with
          | none => none
          | some closest =>
              (remap_color_rgb fuel self closest other true).map
                (fun remapped => three_way_adjustment closest col remapped)

-- ---------------------------------------------------------------------------
-- Template variable expander (src/var_expander.py)
-- ---------------------------------------------------------------------------

/-- Lazy tail of the declaration pattern of load_variables: the group
(.+?) followed by a literal semicolon, matched lazily, so the group is
the shortest nonempty run of non-newline characters whose next character
is a semicolon.  Returns the group and the input after the semicolon. -/
def lazyBody : List Char → Option (List Char × List Char)
  | [] => none
  | c :: cs =>
      if c = '\n' then none
      else
        match cs with
        | ';' :: cs2 => some ([c], cs2)
        | _ => (lazyBody cs).map (fun gr => (c :: gr.1, gr.2))

/-- Attempt of the declaration pattern of load_variables at the current
position: literal at-def, one or more whitespace, a greedy nonempty run
of non-whitespace (the name), one or more whitespace, then the lazy body
up to a semicolon.  The whitespace and non-whitespace classes are
disjoint, so the greedy runs are maximal-munch with no backtracking. -/
def matchDefAt : List Char → Option ((String × String) × List Char)
  | '@' :: 'd' :: 'e' :: 'f' :: rest =>
      if (rest.takeWhile isSpaceChar) = ([] : List Char) then none
      else
        let r1 := rest.dropWhile isSpaceChar
        let name := r1.takeWhile (fun c => !(isSpaceChar c))
        if name = ([] : List Char) then none
        else
          let r2 := r1.dropWhile (fun c => !(isSpaceChar c))
          if (r2.takeWhile isSpaceChar) = ([] : List Char) then none
          else
            let r3 := r2.dropWhile isSpaceChar
            match lazyBody r3 with
            | some (g, r4) => some ((String.mk name, String.mk g), r4)
            | none => none
  | _ => none

/-- The finditer scan of load_variables: leftmost matches, resuming
after each match end.  The fuel is initialised to the text length, which
bounds the number of scan steps, every step consuming at least one
character. -/
def finditerDefsGo (fl : ℕ) (cs : List Char) : List (String × String) :=
  match fl, cs with
  | 0, _ => []
  | _, [] => []
  | Nat.succ f, c :: rest =>
      match matchDefAt (c :: rest) with
      | some (nv, r) => nv :: finditerDefsGo f r
      | none => finditerDefsGo f rest

/-- All declaration matches of load_variables in the content, in
order. -/
def finditerDefs (cs : List Char) : List (String × String) :=
  finditerDefsGo cs.length cs

/-- Lazy tail of the variable usage pattern: the group of one or more
non-whitespace characters, matched lazily, followed by a closing brace.
Returns the group and the input after the brace. -/
def lazyVarName : List Char → Option (List Char × List Char)
  | [] => none
  | c :: cs =>
      if isSpaceChar c then none
      else
        match cs with
        | '}' :: cs2 => some ([c], cs2)
        | _ => (lazyVarName cs).map (fun gr => (c :: gr.1, gr.2))

/-- First match of the variable usage pattern (a dollar, an opening
brace, the lazy group, a closing brace): the scan tries each start
position from the left; a failed attempt advances one character. -/
def findVarUsageGo (fl : ℕ) (cs : List Char) : Option (List Char) :=
  match fl, cs with
  | 0, _ => none
  | _, [] => none
  | Nat.succ f, '$' :: '{' :: rest =>
      match lazyVarName rest with
      | some (g, _) => some g
      | none => findVarUsageGo f ('{' :: rest)
  | Nat.succ f, _ :: rest => findVarUsageGo f rest

/-- First variable usage group of the search call of the source. -/
def findVarUsage (cs : List Char) : Option (List Char) :=
  findVarUsageGo (cs.length + 1) cs

/-- All variable usage groups, in finditer order, resuming after each
match. -/
def findAllVarUsesGo (fl : ℕ) (cs : List Char) : List String :=
  match fl, cs with
  | 0, _ => []
  | _, [] => []
  | Nat.succ f, '$' :: '{' :: rest =>
      match lazyVarName rest with
      | some (g, r) => String.mk g :: findAllVarUsesGo f r
      | none => findAllVarUsesGo f ('{' :: rest)
  | Nat.succ f, _ :: rest => findAllVarUsesGo f rest

/-- All variable usage groups of a line. -/
def findAllVarUses (cs : List Char) : List String :=
  findAllVarUsesGo (cs.length + 1) cs

/-- The full matched text of a variable usage with the given group. -/
def varUseText (g : List Char) : List Char := '$' :: '{' :: (g ++ ['}'])

/-- Python str.replace: every non-overlapping occurrence of old replaced
by new, scanning left to right.  The source only replaces the nonempty
text of a usage match, so old is never empty at any reachable call. -/
def replaceAllGo (fl : ℕ) (text old new : List Char) : List Char :=
  match fl, text with
  | 0, t => t
  | _, [] => []
  | Nat.succ f, c :: rest =>
      if old.isPrefixOf (c :: rest) then
        new ++ replaceAllGo f ((c :: rest).drop old.length) old new
      else c :: replaceAllGo f rest old new

/-- Python str.replace on character lists. -/
def replaceAll (text old new : List Char) : List Char :=
  replaceAllGo text.length text old new

/-- The inner while loop of load_variables resolving one variable: find
the first usage; stop when there is none; when the referenced name is a
known variable declared strictly earlier, substitute every occurrence of
the matched text by its value and continue, otherwise stop (printing a
warning when the name is undefined).  The fuel counts substitutions;
none models the loop not having returned within the fuel. -/
def resolveLoop (fuel : ℕ) (vars : List (String × String)) (order : List String)
    (varName : String) (value : List Char) : Option (List Char) :=
  match fuel with
  | 0 => none
  | Nat.succ f =>
      match findVarUsage value with
      | none => some value
      | some refChars =>
          let refName := String.mk refChars
          match dictGet vars refName with
          | some refVal =>
              if pyIndex order refName < pyIndex order varName then
                resolveLoop f vars order varName
                  (replaceAll value (varUseText refChars) refVal.data)
              else some value
          | none => some value

/-- The outer loop of load_variables over the names in declaration
order, threading the updated variable dict. -/
def loadLoop (fuel : ℕ) (order : List String) :
    List String → List (String × String) → Option (List (String × String))
  | [], vars => some vars
  | name :: rest, vars =>
      match resolveLoop fuel vars order name ((dictGet vars name).getD "").data with
      | none => none
      | some v => loadLoop fuel order rest (dictInsert vars name (String.mk v))

/-- load_variables of src/var_expander.py: collect the declarations in
order (assignment to the dict overwrites duplicates in place), then
resolve each variable in declaration order. -/
def load_variables_fuel (fuel : ℕ) (content : String) : Option (List (String × String)) :=
  let ms := finditerDefs content.data
  let vars := ms.foldl (fun vs nv => dictInsert vs nv.1 nv.2) []
  let order := ms.map Prod.fst
  loadLoop fuel order order vars

/-- Membership in the Python regex class of identifier start characters
[A-Za-z_]. -/
def isIdentStart (c : Char) : Bool :=
  decide ((65 ≤ c.toNat ∧ c.toNat ≤ 90) ∨ (97 ≤ c.toNat ∧ c.toNat ≤ 122)) || c = '_'

/-- Membership in the Python regex class [A-Za-z0-9_]. -/
def isIdentChar (c : Char) : Bool := isIdentStart c || decide (48 ≤ c.toNat ∧ c.toNat ≤ 57)

/-- Attempt of the function call pattern of remove_functions at the
current position: an at sign, an identifier, an opening parenthesis,
optional whitespace, a hash with exactly six hex digits, the greedy run
of non-closing-parenthesis characters (the optional third group), and
the closing parenthesis. -/
def matchFuncAt : List Char → Option ((String × String × String) × List Char)
  | '@' :: rest =>
      match rest with
      | c0 :: _ =>
          if isIdentStart c0 then
            let ident := rest.takeWhile isIdentChar
            match rest.dropWhile isIdentChar with
            | '(' :: r2 =>
                match r2.dropWhile isSpaceChar with
                | '#' :: h1 :: h2 :: h3 :: h4 :: h5 :: h6 :: r4 =>
                    if isHexDigit h1 && isHexDigit h2 && isHexDigit h3 &&
                       isHexDigit h4 && isHexDigit h5 && isHexDigit h6 then
                      let g3 := r4.takeWhile (· ≠ ')')
                      match r4.dropWhile (· ≠ ')') with
                      | ')' :: r5 =>
                          some ((String.mk ident,
                                 String.mk ('#' :: [h1, h2, h3, h4, h5, h6]),
                                 String.mk g3), r5)
                      | _ => none
                    else none
                | _ => none
            | _ => none
          else none
      | [] => none
  | _ => none

/-- Python str.split on a single separator character. -/
def splitOn (sep : Char) : List Char → List (List Char)
  | [] => [[]]
  | c :: rest =>
      if c = sep then [] :: splitOn sep rest
      else
        match splitOn sep rest with
        | p :: ps => (c :: p) :: ps
        | [] => [[c]]

/-- Value of a run of decimal digits. -/
def digitsVal : List Char → ℕ
  | [] => 0
  | c :: rest => digitsVal rest + (c.toNat - 48) * 10 ^ rest.length

/-- Whether every character is a decimal digit. -/
def allDigits (cs : List Char) : Bool := cs.all (fun c => decide (48 ≤ c.toNat ∧ c.toNat ≤ 57))

/-- The Python float() conversion on the numeric literals the expander
can meet: optional surrounding whitespace, an optional sign, and decimal
digits with at most one point (scientific forms are not exercised by the
sources and are not modelled); none is the ValueError raise. -/
def pyFloat (s : String) : Option ℚ :=
  let cs := stripChars s.data
  let signed : ℚ × List Char :=
    match cs with
    | '-' :: rest => (-1, rest)
    | '+' :: rest => (1, rest)
    | rest => (1, rest)
  match splitOn '.' signed.2 with
  | [ip] =>
      if ip ≠ ([] : List Char) ∧ allDigits ip then some (signed.1 * digitsVal ip) else none
  | [ip, fp] =>
      if (ip ≠ ([] : List Char) ∨ fp ≠ ([] : List Char)) ∧ allDigits ip ∧ allDigits fp then
        some (signed.1 * ((digitsVal ip : ℚ) + (digitsVal fp : ℚ) / 10 ^ fp.length))
      else none
  | _ => none

/-- The numeric argument of a transform call: the part after the first
comma when one is present, stripped, else the whole parameter text,
converted by float(). -/
def evalFactor (params : String) : Option ℚ :=
  if params.data.contains ',' then
    match (splitOn ',' params.data).drop 1 with
    | p :: _ => pyFloat (String.mk (stripChars p))
    | [] => none
  else pyFloat params

/-- evaluate_function of remove_functions in src/var_expander.py: parse
the color; on a recognised transform name with a nonempty parameter
text, evaluate it and serialize; on an unknown name, an empty parameter
text, or a conversion failure, fall back to the bare color text. -/
def evalFunc (funcName colorHex g3 : String) : String :=
  let params := pyStrip g3
  match new_css_color colorHex with
  | none => colorHex
  | some rgba =>
      let rgb := rgba.rgb
      if pyLower funcName = "lighten" ∧ params ≠ "" then
        match evalFactor params with
        | some f => (rgb.lighten (f / 100)).to_css_rgba
        | none => colorHex
      else if pyLower funcName = "darken" ∧ params ≠ "" then
        match evalFactor params with
        | some f => (rgb.darken (f / 100)).to_css_rgba
        | none => colorHex
      else colorHex

/-- The re.sub scan of remove_functions: each function call match is
replaced by its evaluation, the scan resuming after the match. -/
def removeFunctionsGo (fl : ℕ) (cs : List Char) : List Char :=
  match fl, cs with
  | 0, t => t
  | _, [] => []
  | Nat.succ f, c :: rest =>
      match matchFuncAt (c :: rest) with
      | some ((name, colorHex, g3), r) =>
          (evalFunc name colorHex g3).data ++ removeFunctionsGo f r
      | none => c :: removeFunctionsGo f rest

/-- remove_functions of src/var_expander.py. -/
def remove_functions (s : String) : String :=
  String.mk (removeFunctionsGo s.data.length s.data)

/-- The while loop of replace_variables: find the first usage; a known
variable is substituted everywhere and the scan restarts; an unknown one
stops the loop (with a warning).  The fuel counts substitutions. -/
def replaceVarsLoop (fuel : ℕ) (vars : List (String × String)) (result : List Char) :
    Option (List Char) :=
  match fuel with
  | 0 => none
  | Nat.succ f =>
      match findVarUsage result with
      | none => some result
      | some g =>
          match dictGet vars (String.mk g) with
          | some v => replaceVarsLoop f vars (replaceAll result (varUseText g) v.data)
          | none => some result

/-- replace_variables of src/var_expander.py: the substitution loop
followed by remove_functions. -/
def replace_variables_fuel (fuel : ℕ) (content : String)
    (vars : List (String × String)) : Option String :=
  (replaceVarsLoop fuel vars content.data).map
    (fun r => String.mk (removeFunctionsGo r.length r))

/-- Python str.splitlines on the line endings the sources contain
(newline, carriage return, and the pair), with no trailing empty
line. -/
def splitlinesGo (fl : ℕ) (cs : List Char) : List (List Char) :=
  match fl, cs with
  | 0, _ => []
  | _, [] => []
  | Nat.succ f, cs =>
      let line := cs.takeWhile (fun c => c ≠ '\n' && c ≠ '\r')
      match cs.dropWhile (fun c => c ≠ '\n' && c ≠ '\r') with
      | '\r' :: '\n' :: r2 => line :: splitlinesGo f r2
      | _ :: r2 => line :: splitlinesGo f r2
      | [] => [line]

/-- Python str.splitlines. -/
def pySplitlines (s : String) : List String :=
  (splitlinesGo (s.data.length + 1) s.data).map String.mk

/-- The header scan of parse_template: the index of the first blank line
(whitespace-only), or 0 when no line is blank, exactly as the loop of
the source leaves split_idx at its initial value 0. -/
def findFirstBlankGo : List String → ℕ → ℕ
  | [], _ => 0
  | l :: rest, i => if pyStrip l = "" then i else findFirstBlankGo rest (i + 1)

/-- Whether the rendered line ends with the statement terminator. -/
def endsWithSemi (cs : List Char) : Bool := cs.getLast? = some ';'

/-- The body loop of parse_template: blank lines are dropped; every
other line is run through replace_variables; a line whose original text
references a function-defined variable gets the simplified marker
appended, but only when its stripped rendering ends in a semicolon. -/
def renderLinesGo (fuel : ℕ) (vars : List (String × String)) (simplified : List String) :
    List String → Option (List String)
  | [] => some []
  | line :: rest =>
      if pyStrip line = "" then renderLinesGo fuel vars simplified rest
      else
        match replaceVarsLoop fuel vars line.data with
        | none => none
        | some replacedCs =>
            let replaced := String.mk (removeFunctionsGo replacedCs.length replacedCs)
            let annotated :=
              match (findAllVarUses line.data).find? (fun u => simplified.contains u) with
              | some _ =>
                  if endsWithSemi (rstripChars replaced.data) then
                    String.mk (rstripChars replaced.data) ++ " /* simplified */"
                  else replaced
              | none => replaced
            (renderLinesGo fuel vars simplified rest).map (annotated :: ·)

/-- The part of parse_template after the header split: build the
variable table from the whole content, detect the function-defined
variables, render the body lines and join them. -/
def parseTemplateBody (fuel : ℕ) (content : String) (body : List String) : Option String :=
  match load_variables_fuel fuel content with
  | none => none
  | some vars =>
      let simplified := (vars.filter (fun nv => remove_functions nv.2 ≠ nv.2)).map Prod.fst
      (renderLinesGo fuel vars simplified body).map (String.intercalate "\n")

/-- parse_template of src/var_expander.py: split at the first blank
line, everything after it is the body. -/
def parse_template_fuel (fuel : ℕ) (content : String) : Option String :=
  let lines := pySplitlines content
  let splitIdx := findFirstBlankGo lines 0
  parseTemplateBody fuel content (lines.drop (splitIdx + 1))

set_option maxRecDepth 10000

/-- The canonical hex color forms in the words of the specification: a
hash followed by 3, 4, 6 or 8 case-insensitive hex digits.  Stated
separately from the validation inside new_css_color so that the parser
can be compared against the specified domain. -/
def spec_canonical_hex (s : String) : Bool :=
  match s.data with
  | '#' :: ds =>
      ds.all isHexDigit &&
        (ds.length = 3 || ds.length = 4 || ds.length = 6 || ds.length = 8)
  | _ => false

-- ---------------------------------------------------------------------------
-- Helper lemmas
-- ---------------------------------------------------------------------------

theorem String.mk_inj {a b : List Char} (h : String.mk a = String.mk b) : a = b := by
  cases h
  rfl

theorem byteHex_length (n : ℤ) : (byteHex n).length = 2 := rfl

theorem rgb_to_hex_length (c : RGB) : (rgb_to_hex c).length = 7 := by
  simp [rgb_to_hex, String.length_append, byteHex_length]
  rfl

theorem setdefaultAppend_snd_ne {α β : Type} [DecidableEq α]
    (l : List (α × List β)) (a : α) (b : β) (h : ∀ p ∈ l, p.2 ≠ []) :
    ∀ p ∈ dictSetdefaultAppend l a b, p.2 ≠ [] := by
  induction l with
  | nil =>
      intro p hp
      simp [dictSetdefaultAppend] at hp
      subst hp
      simp
  | cons kv rest ih =>
      intro p hp
      obtain ⟨k, v⟩ := kv
      by_cases hk : k = a
      · simp [dictSetdefaultAppend, hk] at hp
        rcases hp with hp | hp
        · subst hp
          simp
        · exact h p (List.mem_cons_of_mem _ hp)
      · simp [dictSetdefaultAppend, hk] at hp
        rcases hp with hp | hp
        · subst hp
          exact h (k, v) (List.mem_cons_self _ _)
        · exact ih (fun q hq => h q (List.mem_cons_of_mem _ hq)) p hp

theorem add_color_inv_nonempty (inst : Instance)
    (h : ∀ p ∈ inst.inverted_colors, p.2 ≠ []) (k s : String) :
    ∀ p ∈ (inst.add_color k s).inverted_colors, p.2 ≠ [] := by
  unfold Instance.add_color
  cases hparse : new_css_color s with
  | none => exact h
  | some col => exact setdefaultAppend_snd_ne _ _ _ h

theorem addColors_inv_nonempty (calls : List (String × String)) (inst : Instance)
    (h : ∀ p ∈ inst.inverted_colors, p.2 ≠ []) :
    ∀ p ∈ (addColors inst calls).inverted_colors, p.2 ≠ [] := by
  induction calls generalizing inst with
  | nil => exact h
  | cons c rest ih =>
      exact ih _ (add_color_inv_nonempty inst h c.1 c.2)

-- ---------------------------------------------------------------------------
-- Claim C6
-- ---------------------------------------------------------------------------

/-- C6: strip_jsonc_comments preserves comment-like sequences inside
quoted strings unchanged; in the string state a backslash copies itself
and unconditionally copies the following character, so no character
after a backslash can close the string or start a comment; and a line
comment outside a string is removed, the stripping of the jsonc text
with a trailing line comment before the closing brace yielding the text
with the comment removed and the brace copied (the brace terminates the
line comment and returns the machine to code state). -/
theorem strip_jsonc_comments_c6 :
    strip_jsonc_comments "\x7b\"a\":1//c\x7d" true = "\x7b\"a\":1\x7d"
    ∧ strip_jsonc_comments "\x7b\"key\": \"value with // and /* in string\"\x7d" true =
        "\x7b\"key\": \"value with // and /* in string\"\x7d"
    ∧ ∀ (preserve : Bool) (c : Char) (rest : List Char),
        stripGo preserve State.STRING ('\\' :: c :: rest) =
          '\\' :: c :: stripGo preserve State.STRING rest :=
  ⟨by decide, by decide, fun _ _ _ => rfl⟩

-- ---------------------------------------------------------------------------
-- Claim C5
-- ---------------------------------------------------------------------------

/-- C5: to_css_rgba returns the 6-digit uppercase form exactly when the
alpha is within one 8-bit quantization step of fully opaque (1 minus the
alpha at most 1/255, the condition 254/255 less-or-equal alpha of the
source), and otherwise returns the 6-digit form with the 2-digit alpha
byte appended; alpha 1 yields the 6-digit (length 7 with the hash)
string and pure red with alpha 1/2 yields the string FF00007F after the
hash. -/
theorem to_css_rgba_threshold_c5 :
    (∀ (c : RGB) (a : ℚ),
        (RGBA.to_css_rgba ⟨c, a⟩ = rgb_to_hex c ↔ 1 - a ≤ 1/255)
        ∧ (1/255 < 1 - a →
            RGBA.to_css_rgba ⟨c, a⟩ =
              rgb_to_hex c ++ byteHex (band255 (pyInt (a * 255)))))
    ∧ (∀ c : RGB, (rgb_to_hex c).length = 7)
    ∧ (∀ c : RGB, (RGBA.to_css_rgba ⟨c, 1⟩).length = 7)
    ∧ RGBA.to_css_rgba ⟨⟨1, 1, 1⟩, 1⟩ = "#FFFFFF"
    ∧ RGBA.to_css_rgba ⟨⟨1, 0, 0⟩, 1/2⟩ = "#FF00007F" := by
  have hiff : ∀ a : ℚ, (254/255 ≤ a) ↔ (1 - a ≤ 1/255) := by
    intro a
    constructor <;> intro h <;> linarith
  have key : ∀ (c : RGB) (a : ℚ),
      (RGBA.to_css_rgba ⟨c, a⟩ = rgb_to_hex c ↔ 1 - a ≤ 1/255)
      ∧ (1/255 < 1 - a →
          RGBA.to_css_rgba ⟨c, a⟩ =
            rgb_to_hex c ++ byteHex (band255 (pyInt (a * 255)))) := by
    intro c a
    unfold RGBA.to_css_rgba
    by_cases hc : (254:ℚ)/255 ≤ a
    · rw [if_pos hc]
      refine ⟨⟨fun _ => (hiff a).mp hc, fun _ => rfl⟩, fun hlt => ?_⟩
      exact absurd ((hiff a).mp hc) (not_le.mpr hlt)
    · rw [if_neg hc]
      constructor
      · constructor
        · intro heq
          have hlen := congrArg String.length heq
          rw [String.length_append, byteHex_length, rgb_to_hex_length] at hlen
          exact absurd hlen (by norm_num)
        · intro hle
          exact absurd ((hiff a).mpr hle) hc
      · intro _
        rfl
  refine ⟨key, rgb_to_hex_length, ?_, by decide, by decide⟩
  intro c
  have h1 : RGBA.to_css_rgba ⟨c, 1⟩ = rgb_to_hex c :=
    ((key c 1).1).mpr (by norm_num)
  rw [h1]
  exact rgb_to_hex_length c

-- ---------------------------------------------------------------------------
-- Claim C8
-- ---------------------------------------------------------------------------

/-- C8: after any sequence of add_color calls starting from the empty
instance, every RGB key of the reverse index maps to a nonempty list of
names, and a call whose text fails hex parsing leaves the instance (both
the colors map and the reverse index) unchanged. -/
theorem add_color_invariants_c8 :
    (∀ (calls : List (String × String)) (rgb : RGB) (names : List String),
        (rgb, names) ∈ (addColors emptyInstance calls).inverted_colors → names ≠ [])
    ∧ (∀ (inst : Instance) (key hexStr : String),
        new_css_color hexStr = none → inst.add_color key hexStr = inst) := by
  constructor
  · intro calls rgb names hmem
    exact addColors_inv_nonempty calls emptyInstance (by simp [emptyInstance]) _ hmem
  · intro inst key hexStr hparse
    unfold Instance.add_color
    rw [hparse]

/-- Witness for C8 at a concrete call sequence: the reverse index entry
produced by a valid color is nonempty, and an invalid text is a
no-op. -/
theorem add_color_invariants_c8_witness :
    ((⟨51/255, 102/255, 153/255⟩, ["foo"]) ∈
        (addColors emptyInstance [("foo", "#336699"), ("bad", "zzz")]).inverted_colors
      → ["foo"] ≠ ([] : List String))
    ∧ (new_css_color "zzz" = none ∧
        emptyInstance.add_color "bad" "zzz" = emptyInstance) :=
  ⟨add_color_invariants_c8.1 [("foo", "#336699"), ("bad", "zzz")] _ _,
   by decide, add_color_invariants_c8.2 emptyInstance "bad" "zzz" (by decide)⟩

-- ---------------------------------------------------------------------------
-- Claim C10
-- ---------------------------------------------------------------------------

/-- C10: add_color never removes or rewrites existing reverse index
entries: after adding two distinct valid colors under the same key, the
colors map holds only the second color for the key while the reverse
index still lists the key under the first RGB value in addition to the
second, and an exact-match remap of the first RGB value still consults
the key, resolving through the color the target currently holds for
it. -/
theorem add_color_frame_c10 (k c1 c2 : String) (v1 v2 : RGBA) (other : Instance)
    (h1 : new_css_color c1 = some v1) (h2 : new_css_color c2 = some v2)
    (hne : v1.rgb ≠ v2.rgb) :
    ((emptyInstance.add_color k c1).add_color k c2).colors = [(k, v2)]
    ∧ dictGet ((emptyInstance.add_color k c1).add_color k c2).inverted_colors v1.rgb =
        some [k]
    ∧ dictGet ((emptyInstance.add_color k c1).add_color k c2).inverted_colors v2.rgb =
        some [k]
    ∧ (∀ w : RGBA, dictGet other.colors k = some w →
        remap_color_rgb 2 ((emptyInstance.add_color k c1).add_color k c2) v1.rgb other
          false = some w.rgb) := by
  have e1 : emptyInstance.add_color k c1 = ⟨[(k, v1)], [(v1.rgb, [k])]⟩ := by
    unfold Instance.add_color
    rw [h1]
    rfl
  have e2 : (emptyInstance.add_color k c1).add_color k c2 =
      ⟨[(k, v2)], [(v1.rgb, [k]), (v2.rgb, [k])]⟩ := by
    rw [e1]
    unfold Instance.add_color
    rw [h2]
    simp [dictInsert, dictSetdefaultAppend, hne]
  refine ⟨by rw [e2], ?_, ?_, ?_⟩
  · rw [e2]
    simp [dictGet]
  · rw [e2]
    simp [dictGet, hne]
  · intro w hw
    rw [e2]
    show remap_color_rgb (Nat.succ 1) _ _ _ _ = _
    unfold remap_color_rgb
    simp [dictGet, buildOptions, dictSetdefaultAppend, bestLoop, hw]

/-- Witness for C10 at concrete colors and a concrete target
instance. -/
theorem add_color_frame_c10_witness :
    ((emptyInstance.add_color "k" "#112233").add_color "k" "#445566").colors =
      [("k", ⟨⟨68/255, 85/255, 102/255⟩, 1⟩)]
    ∧ dictGet ((emptyInstance.add_color "k" "#112233").add_color "k"
        "#445566").inverted_colors ⟨17/255, 34/255, 51/255⟩ = some ["k"]
    ∧ dictGet ((emptyInstance.add_color "k" "#112233").add_color "k"
        "#445566").inverted_colors ⟨68/255, 85/255, 102/255⟩ = some ["k"]
    ∧ remap_color_rgb 2 ((emptyInstance.add_color "k" "#112233").add_color "k" "#445566")
        ⟨17/255, 34/255, 51/255⟩ ⟨[("k", ⟨⟨1, 0, 0⟩, 1⟩)], []⟩ false =
        some ⟨1, 0, 0⟩ := by
  have h := add_color_frame_c10 "k" "#112233" "#445566"
    ⟨⟨17/255, 34/255, 51/255⟩, 1⟩ ⟨⟨68/255, 85/255, 102/255⟩, 1⟩
    ⟨[("k", ⟨⟨1, 0, 0⟩, 1⟩)], []⟩ (by decide) (by decide) (by decide)
  exact ⟨h.1, h.2.1, h.2.2.1, h.2.2.2 ⟨⟨1, 0, 0⟩, 1⟩ (by decide)⟩

-- ---------------------------------------------------------------------------
-- Claim C4
-- ---------------------------------------------------------------------------

theorem isHexDigit_u4parse {c : Char} (h : isHexDigit c = true) :
    ∃ v, u4parse c.toNat = some v ∧ v < 16 := by
  simp only [isHexDigit, decide_eq_true_eq] at h
  unfold u4parse
  rcases h with h | h | h
  · rw [if_pos h]
    exact ⟨_, rfl, by omega⟩
  · rw [if_neg (by omega), if_pos h]
    exact ⟨_, rfl, by omega⟩
  · rw [if_neg (by omega), if_neg (by omega), if_pos h]
    exact ⟨_, rfl, by omega⟩

theorem isHexDigit_not_space {c : Char} (h : isHexDigit c = true) :
    isSpaceChar c = false := by
  cases hs : isSpaceChar c
  · rfl
  · exfalso
    simp only [isSpaceChar, Bool.or_eq_true, decide_eq_true_eq] at hs
    rcases hs with ((((rfl | rfl) | rfl) | rfl) | rfl) | rfl <;>
      exact absurd h (by decide)

theorem list_shape_cons {α : Type} (l : List α) (n : ℕ) (h : l.length = n + 1) :
    ∃ a t, l = a :: t ∧ t.length = n := by
  cases l with
  | nil => simp at h
  | cons a t => exact ⟨a, t, rfl, by simpa using h⟩

theorem u8parse_isSome {a b : Char} (ha : isHexDigit a = true) (hb : isHexDigit b = true) :
    ∃ v, u8parse a.toNat b.toNat = some v ∧ v ≤ 255 := by
  obtain ⟨va, hva, hva16⟩ := isHexDigit_u4parse ha
  obtain ⟨vb, hvb, hvb16⟩ := isHexDigit_u4parse hb
  refine ⟨va * 16 + vb, ?_, by omega⟩
  simp [u8parse, hva, hvb]

theorem cssHexMatch_shape {cs : List Char} (hm : cssHexMatch cs = true) :
    ∃ ds, cs = '#' :: ds ∧ (∀ x ∈ ds, isHexDigit x = true) ∧
      (ds.length = 3 ∨ ds.length = 4 ∨ ds.length = 6 ∨ ds.length = 8) := by
  unfold cssHexMatch at hm
  split at hm
  · next ds =>
      simp only [Bool.and_eq_true, Bool.or_eq_true, decide_eq_true_eq] at hm
      exact ⟨ds, rfl, fun x hx => List.all_eq_true.mp hm.1 x hx, by tauto⟩
  · simp at hm

theorem new_css_color_hex3 (a b c : Char) (ha : isHexDigit a = true)
    (hb : isHexDigit b = true) (hc : isHexDigit c = true) :
    ∃ va vb vc, u4parse a.toNat = some va ∧ u4parse b.toNat = some vb ∧
      u4parse c.toNat = some vc ∧
      new_css_color (String.mk ['#', a, b, c]) =
        some ⟨⟨(va * 17 : ℕ) / 255, (vb * 17 : ℕ) / 255, (vc * 17 : ℕ) / 255⟩, 1⟩ := by
  obtain ⟨va, hva, _⟩ := isHexDigit_u4parse ha
  obtain ⟨vb, hvb, _⟩ := isHexDigit_u4parse hb
  obtain ⟨vc, hvc, _⟩ := isHexDigit_u4parse hc
  refine ⟨va, vb, vc, hva, hvb, hvc, ?_⟩
  have hsp : isSpaceChar '#' = false := by decide
  have hstrip : stripChars ['#', a, b, c] = ['#', a, b, c] := by
    simp [stripChars, hsp, isHexDigit_not_space hc]
  unfold new_css_color
  rw [show (String.mk ['#', a, b, c]).data = ['#', a, b, c] from rfl, hstrip]
  rw [if_pos (by simp [cssHexMatch, ha, hb, hc])]
  rw [if_pos (by simp)]
  simp only [u4vparse, hva, hvb, hvc]
  norm_num

theorem new_css_color_domain_c4_aux (s : String) (hs : pyStrip s = s) :
    (new_css_color s).isSome = true ↔ spec_canonical_hex s = true := by
  have hdata : stripChars s.data = s.data := by
    have h2 : (pyStrip s).data = s.data := by rw [hs]
    simpa [pyStrip] using h2
  have hspec : spec_canonical_hex s = cssHexMatch s.data := rfl
  rw [hspec]
  unfold new_css_color
  rw [hdata]
  by_cases hm : cssHexMatch s.data = true
  · rw [if_pos hm, hm]
    simp only [iff_true]
    obtain ⟨ds, heq, hexOf, hlen⟩ := cssHexMatch_shape hm
    rw [heq]
    rcases hlen with h3 | h4 | h6 | h8
    · obtain ⟨a, t1, rfl, h1⟩ := list_shape_cons ds 2 (by omega)
      obtain ⟨b, t2, rfl, h2⟩ := list_shape_cons t1 1 (by omega)
      obtain ⟨c, t3, rfl, h3'⟩ := list_shape_cons t2 0 (by omega)
      obtain rfl := List.length_eq_zero.mp h3'
      obtain ⟨va, hva, _⟩ := isHexDigit_u4parse (hexOf a (by simp))
      obtain ⟨vb, hvb, _⟩ := isHexDigit_u4parse (hexOf b (by simp))
      obtain ⟨vc, hvc, _⟩ := isHexDigit_u4parse (hexOf c (by simp))
      rw [if_pos (by simp)]
      simp [u4vparse, hva, hvb, hvc]
    · obtain ⟨a, t1, rfl, h1⟩ := list_shape_cons ds 3 (by omega)
      obtain ⟨b, t2, rfl, h2⟩ := list_shape_cons t1 2 (by omega)
      obtain ⟨c, t3, rfl, h3'⟩ := list_shape_cons t2 1 (by omega)
      obtain ⟨d, t4, rfl, h4'⟩ := list_shape_cons t3 0 (by omega)
      obtain rfl := List.length_eq_zero.mp h4'
      obtain ⟨va, hva, _⟩ := isHexDigit_u4parse (hexOf a (by simp))
      obtain ⟨vb, hvb, _⟩ := isHexDigit_u4parse (hexOf b (by simp))
      obtain ⟨vc, hvc, _⟩ := isHexDigit_u4parse (hexOf c (by simp))
      obtain ⟨vd, hvd, _⟩ := isHexDigit_u4parse (hexOf d (by simp))
      rw [if_pos (by simp)]
      simp [u4vparse, hva, hvb, hvc, hvd]
    · obtain ⟨a, t1, rfl, h1⟩ := list_shape_cons ds 5 (by omega)
      obtain ⟨b, t2, rfl, h2⟩ := list_shape_cons t1 4 (by omega)
      obtain ⟨c, t3, rfl, h3'⟩ := list_shape_cons t2 3 (by omega)
      obtain ⟨d, t4, rfl, h4'⟩ := list_shape_cons t3 2 (by omega)
      obtain ⟨e, t5, rfl, h5'⟩ := list_shape_cons t4 1 (by omega)
      obtain ⟨f, t6, rfl, h6'⟩ := list_shape_cons t5 0 (by omega)
      obtain rfl := List.length_eq_zero.mp h6'
      obtain ⟨v1, hv1, _⟩ := u8parse_isSome (hexOf a (by simp)) (hexOf b (by simp))
      obtain ⟨v2, hv2, _⟩ := u8parse_isSome (hexOf c (by simp)) (hexOf d (by simp))
      obtain ⟨v3, hv3, _⟩ := u8parse_isSome (hexOf e (by simp)) (hexOf f (by simp))
      rw [if_neg (by simp)]
      simp [u8vparse, hv1, hv2, hv3]
    · obtain ⟨a, t1, rfl, h1⟩ := list_shape_cons ds 7 (by omega)
      obtain ⟨b, t2, rfl, h2⟩ := list_shape_cons t1 6 (by omega)
      obtain ⟨c, t3, rfl, h3'⟩ := list_shape_cons t2 5 (by omega)
      obtain ⟨d, t4, rfl, h4'⟩ := list_shape_cons t3 4 (by omega)
      obtain ⟨e, t5, rfl, h5'⟩ := list_shape_cons t4 3 (by omega)
      obtain ⟨f, t6, rfl, h6'⟩ := list_shape_cons t5 2 (by omega)
      obtain ⟨g, t7, rfl, h7'⟩ := list_shape_cons t6 1 (by omega)
      obtain ⟨i, t8, rfl, h8'⟩ := list_shape_cons t7 0 (by omega)
      obtain rfl := List.length_eq_zero.mp h8'
      obtain ⟨v1, hv1, _⟩ := u8parse_isSome (hexOf a (by simp)) (hexOf b (by simp))
      obtain ⟨v2, hv2, _⟩ := u8parse_isSome (hexOf c (by simp)) (hexOf d (by simp))
      obtain ⟨v3, hv3, _⟩ := u8parse_isSome (hexOf e (by simp)) (hexOf f (by simp))
      obtain ⟨v4, hv4, _⟩ := u8parse_isSome (hexOf g (by simp)) (hexOf i (by simp))
      rw [if_neg (by simp)]
      simp [u8vparse, hv1, hv2, hv3, hv4]
  · rw [if_neg hm]
    simp only [Option.isSome_none]
    constructor
    · intro h'
      exact absurd h' (by simp)
    · intro h'
      exact absurd h' hm

/-- C4: new_css_color returns a fully specified RGBA exactly for strings
of the four canonical hex forms (hash plus 3, 4, 6 or 8 case-insensitive
hex digits) and fails (the value none, the ValueError raise of the
source) for every other length, for example 5 or 7 hex digits, or any
non-hex character; nibble forms are expanded by duplication (each digit
value times 17) with alpha defaulting to fully opaque, and no malformed
input is silently clamped to a color.  The domain equivalence is stated
for inputs that str.strip leaves unchanged, since the source strips its
input first. -/
theorem new_css_color_c4 :
    (∀ s : String, pyStrip s = s →
        ((new_css_color s).isSome = true ↔ spec_canonical_hex s = true))
    ∧ (∀ a b c : Char, isHexDigit a = true → isHexDigit b = true →
        isHexDigit c = true →
        ∃ va vb vc, u4parse a.toNat = some va ∧ u4parse b.toNat = some vb ∧
          u4parse c.toNat = some vc ∧
          new_css_color (String.mk ['#', a, b, c]) =
            some ⟨⟨(va * 17 : ℕ) / 255, (vb * 17 : ℕ) / 255, (vc * 17 : ℕ) / 255⟩, 1⟩)
    ∧ new_css_color "#11223344" = some ⟨⟨17/255, 34/255, 51/255⟩, 68/255⟩
    ∧ new_css_color "#12345" = none
    ∧ new_css_color "#1234567" = none
    ∧ new_css_color "#12G4" = none :=
  ⟨new_css_color_domain_c4_aux, new_css_color_hex3,
   by decide, by decide, by decide, by decide⟩

/-- Witness for C4 at concrete strings, the hypotheses discharged by
evaluation. -/
theorem new_css_color_c4_witness :
    ((new_css_color "#aB12").isSome = true ↔ spec_canonical_hex "#aB12" = true)
    ∧ (∃ va vb vc, u4parse 'f'.toNat = some va ∧ u4parse 'A'.toNat = some vb ∧
        u4parse 'b'.toNat = some vc ∧
        new_css_color (String.mk ['#', 'f', 'A', 'b']) =
          some ⟨⟨(va * 17 : ℕ) / 255, (vb * 17 : ℕ) / 255, (vc * 17 : ℕ) / 255⟩, 1⟩) :=
  ⟨new_css_color_c4.1 "#aB12" (by decide),
   new_css_color_c4.2.1 'f' 'A' 'b' (by decide) (by decide) (by decide)⟩

-- ---------------------------------------------------------------------------
-- Fuel monotonicity
-- ---------------------------------------------------------------------------

theorem resolveLoop_mono (f : ℕ) :
    ∀ (vars : List (String × String)) (order : List String) (varName : String)
      (value v : List Char),
      resolveLoop f vars order varName value = some v →
      resolveLoop (f + 1) vars order varName value = some v := by
  induction f with
  | zero =>
      intro vars order varName value v h
      simp [resolveLoop] at h
  | succ f ih =>
      intro vars order varName value v h
      unfold resolveLoop at h ⊢
      cases hf : findVarUsage value with
      | none => rw [hf] at h; exact h
      | some g =>
          rw [hf] at h
          dsimp only at h ⊢
          cases hd : dictGet vars (String.mk g) with
          | none => rw [hd] at h; exact h
          | some rv =>
              rw [hd] at h
              dsimp only at h ⊢
              by_cases hidx : pyIndex order (String.mk g) < pyIndex order varName
              · rw [if_pos hidx] at h ⊢
                exact ih _ _ _ _ _ h
              · rw [if_neg hidx] at h ⊢
                exact h

theorem loadLoop_mono (names : List String) :
    ∀ (f : ℕ) (order : List String) (vars res : List (String × String)),
      loadLoop f order names vars = some res →
      loadLoop (f + 1) order names vars = some res := by
  induction names with
  | nil =>
      intro f order vars res h
      exact h
  | cons name rest ih =>
      intro f order vars res h
      unfold loadLoop at h ⊢
      cases hr : resolveLoop f vars order name ((dictGet vars name).getD "").data with
      | none => rw [hr] at h; exact absurd h (by simp)
      | some v =>
          rw [hr] at h
          rw [resolveLoop_mono _ _ _ _ _ _ hr]
          exact ih _ _ _ _ h

theorem load_variables_fuel_mono {f : ℕ} {content : String}
    {res : List (String × String)} (h : load_variables_fuel f content = some res) :
    load_variables_fuel (f + 1) content = some res := by
  unfold load_variables_fuel at h ⊢
  exact loadLoop_mono _ _ _ _ _ h

theorem replaceVarsLoop_mono (f : ℕ) :
    ∀ (vars : List (String × String)) (result v : List Char),
      replaceVarsLoop f vars result = some v →
      replaceVarsLoop (f + 1) vars result = some v := by
  induction f with
  | zero =>
      intro vars result v h
      simp [replaceVarsLoop] at h
  | succ f ih =>
      intro vars result v h
      unfold replaceVarsLoop at h ⊢
      cases hf : findVarUsage result with
      | none => rw [hf] at h; exact h
      | some g =>
          rw [hf] at h
          dsimp only at h ⊢
          cases hd : dictGet vars (String.mk g) with
          | none => rw [hd] at h; exact h
          | some rv =>
              rw [hd] at h
              dsimp only at h ⊢
              exact ih _ _ _ h

theorem renderLinesGo_mono (lines : List String) :
    ∀ (f : ℕ) (vars : List (String × String)) (simplified res : List String),
      renderLinesGo f vars simplified lines = some res →
      renderLinesGo (f + 1) vars simplified lines = some res := by
  induction lines with
  | nil =>
      intro f vars simplified res h
      exact h
  | cons line rest ih =>
      intro f vars simplified res h
      unfold renderLinesGo at h ⊢
      by_cases hb : pyStrip line = ""
      · rw [if_pos hb] at h ⊢
        exact ih _ _ _ _ h
      · rw [if_neg hb] at h ⊢
        cases hr : replaceVarsLoop f vars line.data with
        | none => rw [hr] at h; exact absurd h (by simp)
        | some rc =>
            rw [hr] at h
            rw [replaceVarsLoop_mono _ _ _ _ hr]
            cases hrest : renderLinesGo f vars simplified rest with
            | none => rw [hrest] at h; exact absurd h (by simp)
            | some rs =>
                rw [hrest] at h
                rw [ih _ _ _ _ hrest]
                exact h

theorem parseTemplateBody_mono {f : ℕ} {content : String} {body : List String}
    {res : String} (h : parseTemplateBody f content body = some res) :
    parseTemplateBody (f + 1) content body = some res := by
  unfold parseTemplateBody at h ⊢
  cases hl : load_variables_fuel f content with
  | none => rw [hl] at h; exact absurd h (by simp)
  | some vars =>
      rw [hl] at h
      rw [load_variables_fuel_mono hl]
      dsimp only at h ⊢
      cases hr : renderLinesGo f vars
          ((vars.filter (fun nv => remove_functions nv.2 ≠ nv.2)).map Prod.fst) body with
      | none => rw [hr] at h; exact absurd h (by simp)
      | some ls =>
          rw [hr] at h
          rw [renderLinesGo_mono _ _ _ _ _ hr]
          exact h

theorem parse_template_fuel_mono {f : ℕ} {content : String} {res : String}
    (h : parse_template_fuel f content = some res) :
    parse_template_fuel (f + 1) content = some res := by
  unfold parse_template_fuel at h ⊢
  exact parseTemplateBody_mono h

theorem parse_template_fuel_stable {f : ℕ} {content : String} {res : String}
    (h : parse_template_fuel f content = some res) :
    ∀ n, parse_template_fuel (f + n) content = some res := by
  intro n
  induction n with
  | zero => exact h
  | succ n ih => exact parse_template_fuel_mono ih

-- ---------------------------------------------------------------------------
-- Nearest-neighbour scan and remap lemmas
-- ---------------------------------------------------------------------------

theorem dictGet_mem_keys {α β : Type} [DecidableEq α] :
    ∀ (l : List (α × β)) (a : α) (b : β), dictGet l a = some b → a ∈ l.map Prod.fst := by
  intro l
  induction l with
  | nil => intro a b h; simp [dictGet] at h
  | cons kv rest ih =>
      intro a b h
      unfold dictGet at h
      by_cases hk : kv.1 = a
      · simp [hk]
      · rw [if_neg (by exact hk)] at h
        exact List.mem_cons_of_mem _ (ih a b h)

theorem mem_keys_dictGet_isSome {α β : Type} [DecidableEq α] :
    ∀ (l : List (α × β)) (a : α), a ∈ l.map Prod.fst → (dictGet l a).isSome = true := by
  intro l
  induction l with
  | nil => intro a h; simp at h
  | cons kv rest ih =>
      intro a h
      unfold dictGet
      by_cases hk : kv.1 = a
      · rw [if_pos hk]
        rfl
      · rw [if_neg hk]
        apply ih
        simp at h
        rcases h with h | h
        · exact absurd h.symm hk
        · simpa using h

theorem distanceSq_nonneg (a b : RGBA) : 0 ≤ distanceSq a b := by
  unfold distanceSq
  dsimp only
  nlinarith [mul_self_nonneg (a.rgb.r - b.rgb.r), mul_self_nonneg (a.rgb.g - b.rgb.g),
    mul_self_nonneg (a.rgb.b - b.rgb.b)]

theorem distanceSq_self (a : RGB) : distanceSq ⟨a, 1⟩ ⟨a, 1⟩ = 0 := by
  unfold distanceSq
  ring

theorem distanceSq_eq_zero {a b : RGB} (h : distanceSq ⟨a, 1⟩ ⟨b, 1⟩ = 0) : a = b := by
  unfold distanceSq at h
  dsimp only at h
  have e1 : (a.r - b.r) * (a.r - b.r) = 0 := by
    nlinarith [mul_self_nonneg (a.g - b.g), mul_self_nonneg (a.b - b.b),
      mul_self_nonneg (a.r - b.r)]
  have e2 : (a.g - b.g) * (a.g - b.g) = 0 := by
    nlinarith [mul_self_nonneg (a.r - b.r), mul_self_nonneg (a.b - b.b)]
  have e3 : (a.b - b.b) * (a.b - b.b) = 0 := by
    nlinarith [mul_self_nonneg (a.r - b.r), mul_self_nonneg (a.g - b.g)]
  have h1 : a.r = b.r := by have := mul_self_eq_zero.mp e1; linarith
  have h2 : a.g = b.g := by have := mul_self_eq_zero.mp e2; linarith
  have h3 : a.b = b.b := by have := mul_self_eq_zero.mp e3; linarith
  cases a
  cases b
  simp only [RGB.mk.injEq]
  exact ⟨h1, h2, h3⟩

theorem nnLoop_mem : ∀ (l : List RGB) (col cur : RGB) (minD : Option ℚ),
    nnLoop l col cur minD = cur ∨ nnLoop l col cur minD ∈ l := by
  intro l
  induction l with
  | nil => intro col cur minD; left; rfl
  | cons c rest ih =>
      intro col cur minD
      unfold nnLoop
      cases minD with
      | none =>
          dsimp only
          rcases ih col c (some (distanceSq ⟨c, 1⟩ ⟨col, 1⟩)) with h | h
          · right
            rw [h]
            exact List.mem_cons_self _ _
          · right
            exact List.mem_cons_of_mem _ h
      | some m =>
          dsimp only
          by_cases hlt : distanceSq ⟨c, 1⟩ ⟨col, 1⟩ < m
          · rw [if_pos hlt]
            rcases ih col c (some (distanceSq ⟨c, 1⟩ ⟨col, 1⟩)) with h | h
            · right
              rw [h]
              exact List.mem_cons_self _ _
            · right
              exact List.mem_cons_of_mem _ h
          · rw [if_neg hlt]
            rcases ih col cur (some m) with h | h
            · left
              exact h
            · right
              exact List.mem_cons_of_mem _ h

theorem nnLoop_self : ∀ (l : List RGB) (col cur : RGB) (minD : Option ℚ),
    (∀ m, minD = some m → 0 ≤ m ∧ (m = 0 → cur = col)) →
    (col ∈ l ∨ (minD = some 0 ∧ cur = col)) →
    nnLoop l col cur minD = col := by
  intro l
  induction l with
  | nil =>
      intro col cur minD _ hin
      rcases hin with h | ⟨_, rfl⟩
      · simp at h
      · rfl
  | cons c rest ih =>
      intro col cur minD hQ hin
      unfold nnLoop
      cases minD with
      | none =>
          dsimp only
          rcases hin with hcol | ⟨hm, _⟩
          · by_cases hc : c = col
            · subst hc
              apply ih
              · intro m hm
                refine ⟨?_, fun _ => rfl⟩
                cases hm
                exact distanceSq_nonneg _ _
              · right
                exact ⟨by rw [distanceSq_self], rfl⟩
            · have hcol' : col ∈ rest := by
                rcases List.mem_cons.mp hcol with h | h
                · exact absurd h.symm hc
                · exact h
              apply ih
              · intro m hm
                cases hm
                exact ⟨distanceSq_nonneg _ _, fun h0 => distanceSq_eq_zero h0⟩
              · left
                exact hcol'
          · exact absurd hm (by simp)
      | some m =>
          dsimp only
          obtain ⟨hm0, hmz⟩ := hQ m rfl
          by_cases hlt : distanceSq ⟨c, 1⟩ ⟨col, 1⟩ < m
          · rw [if_pos hlt]
            apply ih
            · intro m' hm'
              cases hm'
              exact ⟨distanceSq_nonneg _ _, fun h0 => distanceSq_eq_zero h0⟩
            · rcases hin with hcol | ⟨hm, _⟩
              · by_cases hc : c = col
                · subst hc
                  right
                  exact ⟨by rw [distanceSq_self], rfl⟩
                · left
                  rcases List.mem_cons.mp hcol with h | h
                  · exact absurd h.symm hc
                  · exact h
              · exfalso
                have : m = 0 := by
                  injection hm
                have := distanceSq_nonneg (⟨c, 1⟩ : RGBA) ⟨col, 1⟩
                linarith
          · rw [if_neg hlt]
            apply ih
            · intro m' hm'
              cases hm'
              exact ⟨hm0, hmz⟩
            · rcases hin with hcol | ⟨hm, hcur⟩
              · by_cases hc : c = col
                · subst hc
                  have hd0 : distanceSq ⟨c, 1⟩ ⟨c, 1⟩ = 0 := distanceSq_self c
                  have hmeq : m = 0 := by
                    rw [hd0] at hlt
                    linarith [not_lt.mp hlt]
                  right
                  exact ⟨by rw [hmeq], hmz hmeq⟩
                · left
                  rcases List.mem_cons.mp hcol with h | h
                  · exact absurd h.symm hc
                  · exact h
              · right
                exact ⟨hm, hcur⟩

theorem nearest_stored_self {inv : List (RGB × List String)} {col : RGB}
    (h : col ∈ inv.map Prod.fst) : nearest_stored inv col = some col := by
  cases inv with
  | nil => simp at h
  | cons p rest =>
      obtain ⟨c0, names0⟩ := p
      unfold nearest_stored
      dsimp only
      congr 1
      apply nnLoop_self
      · intro m hm
        cases hm
      · left
        exact h

theorem nearest_stored_mem {inv : List (RGB × List String)} {col closest : RGB}
    (h : nearest_stored inv col = some closest) : closest ∈ inv.map Prod.fst := by
  cases inv with
  | nil => simp [nearest_stored] at h
  | cons p rest =>
      obtain ⟨c0, names0⟩ := p
      unfold nearest_stored at h
      dsimp only at h
      have heq : closest = nnLoop (((c0, names0) :: rest).map Prod.fst) col c0 none := by
        injection h with h'
        exact h'.symm
      rcases nnLoop_mem (((c0, names0) :: rest).map Prod.fst) col c0 none with h' | h'
      · rw [heq, h']
        simp
      · rw [heq]
        exact h'

theorem buildOptions_all_none {other : Instance} :
    ∀ (keys : List String) (init : List (RGB × List String)),
      (∀ k ∈ keys, dictGet other.colors k = none) →
      keys.foldl
        (fun opts key =>
          match dictGet other.colors key with
          | some cand => dictSetdefaultAppend opts cand.rgb key
          | none => opts) init = init := by
  intro keys
  induction keys with
  | nil => intro init _; rfl
  | cons k rest ih =>
      intro init h
      have hk : dictGet other.colors k = none := h k (List.mem_cons_self _ _)
      show List.foldl _ (match dictGet other.colors k with
        | some cand => dictSetdefaultAppend init cand.rgb k
        | none => init) rest = init
      rw [hk]
      exact ih init (fun x hx => h x (List.mem_cons_of_mem _ hx))

theorem buildOptions_nil {other : Instance} {keys : List String}
    (h : ∀ k ∈ keys, dictGet other.colors k = none) : buildOptions other keys = [] :=
  buildOptions_all_none keys [] h

theorem remap_color_rgb_mono (n : ℕ) :
    ∀ (self : Instance) (col : RGB) (other : Instance) (b : Bool) (r : RGB),
      remap_color_rgb n self col other b = some r →
      remap_color_rgb (n + 1) self col other b = some r := by
  induction n with
  | zero =>
      intro self col other b r h
      simp [remap_color_rgb] at h
  | succ n ih =>
      intro self col other b r h
      unfold remap_color_rgb at h ⊢
      cases hd : dictGet self.inverted_colors col with
      | some keys =>
          rw [hd] at h
          exact h
      | none =>
          rw [hd] at h
          dsimp only at h ⊢
          cases hn : nearest_stored self.inverted_colors col with
          | none => rw [hn] at h; exact absurd h (by simp)
          | some closest =>
              rw [hn] at h
              dsimp only at h ⊢
              cases hr : remap_color_rgb n self closest other true with
              | none => rw [hr] at h; exact absurd h (by simp)
              | some rem =>
                  rw [hr] at h
                  rw [ih _ _ _ _ _ hr]
                  exact h

theorem remap_color_rgb_stable {k : ℕ} {self : Instance} {col : RGB} {other : Instance}
    {b : Bool} {res : RGB} (h : remap_color_rgb k self col other b = some res) :
    ∀ n, remap_color_rgb (k + n) self col other b = some res := by
  intro n
  induction n with
  | zero => exact h
  | succ n ih => exact remap_color_rgb_mono _ _ _ _ _ _ ih

-- ---------------------------------------------------------------------------
-- Claim C9
-- ---------------------------------------------------------------------------

/-- C9: for every source instance whose reverse color index is nonempty
and every queried color, remap_color_rgb terminates: fuel 2 (one
recursive call) already returns a value, adding fuel never changes the
result, and when the queried color is not an exact key the single
recursive call is made on the nearest stored color, which is an exact
key of the index, so the recursion resolves at depth at most one. -/
theorem remap_color_rgb_terminates_c9 (self other : Instance) (col : RGB)
    (hne : self.inverted_colors ≠ []) :
    (∃ res, remap_color_rgb 2 self col other false = some res)
    ∧ (∀ n, remap_color_rgb (2 + n) self col other false =
        remap_color_rgb 2 self col other false)
    ∧ (dictGet self.inverted_colors col = none →
        ∃ closest, nearest_stored self.inverted_colors col = some closest
          ∧ (dictGet self.inverted_colors closest).isSome = true) := by
  have hsome : ∃ res, remap_color_rgb 2 self col other false = some res := by
    show ∃ res, remap_color_rgb (Nat.succ 1) self col other false = some res
    unfold remap_color_rgb
    cases hd : dictGet self.inverted_colors col with
    | some keys =>
        dsimp only
        cases hb : buildOptions other keys with
        | nil => exact ⟨col, rfl⟩
        | cons p rest =>
            obtain ⟨r0, ns0⟩ := p
            exact ⟨_, rfl⟩
    | none =>
        dsimp only
        cases hn : nearest_stored self.inverted_colors col with
        | none =>
            exfalso
            cases hinv : self.inverted_colors with
            | nil => exact hne hinv
            | cons p rest =>
                rw [hinv] at hn
                obtain ⟨c0, names0⟩ := p
                simp [nearest_stored] at hn
        | some closest =>
            dsimp only
            have hmem : closest ∈ self.inverted_colors.map Prod.fst :=
              nearest_stored_mem hn
            have hsome2 := mem_keys_dictGet_isSome _ _ hmem
            obtain ⟨keys2, hk2⟩ := Option.isSome_iff_exists.mp hsome2
            show ∃ res, Option.map _ (remap_color_rgb (Nat.succ 0) self closest other true)
              = some res
            unfold remap_color_rgb
            rw [hk2]
            dsimp only
            cases hb : buildOptions other keys2 with
            | nil => exact ⟨_, rfl⟩
            | cons p rest =>
                obtain ⟨r0, ns0⟩ := p
                exact ⟨_, rfl⟩
  obtain ⟨res, hres⟩ := hsome
  refine ⟨⟨res, hres⟩, ?_, ?_⟩
  · intro n
    rw [remap_color_rgb_stable hres n, hres]
  · intro hd
    cases hn : nearest_stored self.inverted_colors col with
    | none =>
        exfalso
        cases hinv : self.inverted_colors with
        | nil => exact hne hinv
        | cons p rest =>
            rw [hinv] at hn
            obtain ⟨c0, names0⟩ := p
            simp [nearest_stored] at hn
    | some closest =>
        exact ⟨closest, rfl,
          mem_keys_dictGet_isSome _ _ (nearest_stored_mem hn)⟩

/-- Witness for C9: a one-key instance, a query off the palette. -/
theorem remap_color_rgb_terminates_c9_witness :
    (∃ res, remap_color_rgb 2 ⟨[("k", ⟨⟨1, 0, 0⟩, 1⟩)], [(⟨1, 0, 0⟩, ["k"])]⟩
        ⟨0, 1, 0⟩ emptyInstance false = some res)
    ∧ (∀ n, remap_color_rgb (2 + n) ⟨[("k", ⟨⟨1, 0, 0⟩, 1⟩)], [(⟨1, 0, 0⟩, ["k"])]⟩
        ⟨0, 1, 0⟩ emptyInstance false =
        remap_color_rgb 2 ⟨[("k", ⟨⟨1, 0, 0⟩, 1⟩)], [(⟨1, 0, 0⟩, ["k"])]⟩
          ⟨0, 1, 0⟩ emptyInstance false)
    ∧ (dictGet ([(⟨1, 0, 0⟩, ["k"])] : List (RGB × List String)) ⟨0, 1, 0⟩ = none →
        ∃ closest, nearest_stored [(⟨1, 0, 0⟩, ["k"])] ⟨0, 1, 0⟩ = some closest
          ∧ (dictGet ([(⟨1, 0, 0⟩, ["k"])] : List (RGB × List String)) closest).isSome
              = true) :=
  remap_color_rgb_terminates_c9 ⟨[("k", ⟨⟨1, 0, 0⟩, 1⟩)], [(⟨1, 0, 0⟩, ["k"])]⟩
    emptyInstance ⟨0, 1, 0⟩ (by decide)

-- ---------------------------------------------------------------------------
-- Claim C1
-- ---------------------------------------------------------------------------

theorem resolveLoop_cycle_diverges :
    ∀ fuel, resolveLoop fuel [("a", "$\x7ba\x7d"), ("b", "$\x7ba\x7d")] ["a", "b"] "b"
      "$\x7ba\x7d".data = none := by
  intro fuel
  induction fuel with
  | zero => rfl
  | succ f ih =>
      have step : resolveLoop (f + 1) [("a", "$\x7ba\x7d"), ("b", "$\x7ba\x7d")]
          ["a", "b"] "b" "$\x7ba\x7d".data =
          resolveLoop f [("a", "$\x7ba\x7d"), ("b", "$\x7ba\x7d")]
            ["a", "b"] "b" "$\x7ba\x7d".data := rfl
      rw [step]
      exact ih

theorem replaceVarsLoop_cycle_diverges :
    ∀ fuel, replaceVarsLoop fuel [("b", "$\x7bb\x7d")] "$\x7bb\x7d".data = none := by
  intro fuel
  induction fuel with
  | zero => rfl
  | succ f ih =>
      have step : replaceVarsLoop (f + 1) [("b", "$\x7bb\x7d")] "$\x7bb\x7d".data =
          replaceVarsLoop f [("b", "$\x7bb\x7d")] "$\x7bb\x7d".data := rfl
      rw [step]
      exact ih

/-- C1: the claimed termination of variable expansion FAILS on the code:
on the two-declaration input where a refers to itself and b refers to a,
the resolution loop for b replaces the reference by the stuck value of a
(which is the reference text itself) forever, so for every fuel bound
load_variables has not returned; likewise the substitution loop of
replace_variables loops forever when a variable value that still
contains its own reference (producible by load_variables) is
substituted.  The loop body produces no diagnostic and never breaks,
contradicting the stop-with-a-diagnostic behaviour the claim (and the
comment in the source) prescribe. -/
theorem load_variables_nontermination_c1 :
    (∀ fuel, load_variables_fuel fuel "@def a $\x7ba\x7d;\n@def b $\x7ba\x7d;" = none)
    ∧ (∀ fuel, replace_variables_fuel fuel "$\x7bb\x7d" [("b", "$\x7bb\x7d")] = none) := by
  constructor
  · intro fuel
    cases fuel with
    | zero => rfl
    | succ f =>
        have step : load_variables_fuel (f + 1) "@def a $\x7ba\x7d;\n@def b $\x7ba\x7d;" =
            (match resolveLoop (f + 1) [("a", "$\x7ba\x7d"), ("b", "$\x7ba\x7d")]
                ["a", "b"] "b" "$\x7ba\x7d".data with
             | none => none
             | some v => loadLoop (f + 1) ["a", "b"] []
                 (dictInsert [("a", "$\x7ba\x7d"), ("b", "$\x7ba\x7d")] "b"
                   (String.mk v))) := rfl
        rw [step, resolveLoop_cycle_diverges (f + 1)]
  · intro fuel
    unfold replace_variables_fuel
    rw [replaceVarsLoop_cycle_diverges fuel]
    rfl

-- ---------------------------------------------------------------------------
-- Claim C3
-- ---------------------------------------------------------------------------

theorem parse_template_c3_eval :
    parse_template_fuel 64
      "@def c #ff5733;\n@def bg @lighten(#ff5733, 20);\n\n.btn\x7bcolor:$\x7bc\x7d;background:$\x7bbg\x7d;\x7d" =
    some ".btn\x7bcolor:#ff5733;background:#FFAB99;\x7d" := by decide

/-- C3 counterexample: at the document of the claim, parse_template does
NOT return the string carrying the simplified marker; it returns the
line without the marker, because the rendered line ends in a closing
brace, not in a semicolon, and the marker is only appended when the
stripped rendering ends in a semicolon. -/
theorem parse_template_c3_counterexample :
    parse_template_fuel 64
      "@def c #ff5733;\n@def bg @lighten(#ff5733, 20);\n\n.btn\x7bcolor:$\x7bc\x7d;background:$\x7bbg\x7d;\x7d" ≠
      some ".btn\x7bcolor:#ff5733;background:#FFAB99; /* simplified */\x7d"
    ∧ parse_template_fuel 64
      "@def c #ff5733;\n@def bg @lighten(#ff5733, 20);\n\n.btn\x7bcolor:$\x7bc\x7d;background:$\x7bbg\x7d;\x7d" =
      some ".btn\x7bcolor:#ff5733;background:#FFAB99;\x7d" := by
  constructor
  · rw [parse_template_c3_eval]
    decide
  · exact parse_template_c3_eval

/-- C3 as amended: parse_template applied to the document of the claim
returns the body line with the lighten call evaluated to the lightened
color in serialized hex form, but WITHOUT the trailing simplified
marker, because the line ends in a closing brace rather than the
semicolon the annotation condition requires; the result is stable under
any additional fuel. -/
theorem parse_template_c3_amended :
    ∀ n, parse_template_fuel (64 + n)
      "@def c #ff5733;\n@def bg @lighten(#ff5733, 20);\n\n.btn\x7bcolor:$\x7bc\x7d;background:$\x7bbg\x7d;\x7d" =
      some ".btn\x7bcolor:#ff5733;background:#FFAB99;\x7d" :=
  parse_template_fuel_stable parse_template_c3_eval

-- ---------------------------------------------------------------------------
-- Claim C7
-- ---------------------------------------------------------------------------

theorem parse_template_c7_eval :
    parse_template_fuel 64
      "@def darcula_highlight_color rgba(80, 80, 00, 0.80);\nCustomIDAMemo\x7b\n    qproperty-line-bg-highlight: $\x7bdarcula_highlight_color\x7d;\n\x7d" =
    some "CustomIDAMemo\x7b\n    qproperty-line-bg-highlight: rgba(80, 80, 00, 0.80);\n\x7d" := by
  decide

theorem findFirstBlankGo_zero :
    ∀ (lines : List String) (i : ℕ), (∀ l ∈ lines, pyStrip l ≠ "") →
      findFirstBlankGo lines i = 0 := by
  intro lines
  induction lines with
  | nil => intro i _; rfl
  | cons l rest ih =>
      intro i h
      unfold findFirstBlankGo
      rw [if_neg (h l (List.mem_cons_self _ _))]
      exact ih _ (fun x hx => h x (List.mem_cons_of_mem _ hx))

/-- C7 counterexample: a template document with no blank line separating
header and body for which parse_template silently produces output (the
document and expected rendering of the test suite of the repository):
no structural error is surfaced. -/
theorem parse_template_c7_counterexample :
    (∀ l ∈ pySplitlines
        "@def darcula_highlight_color rgba(80, 80, 00, 0.80);\nCustomIDAMemo\x7b\n    qproperty-line-bg-highlight: $\x7bdarcula_highlight_color\x7d;\n\x7d",
        pyStrip l ≠ "")
    ∧ parse_template_fuel 64
        "@def darcula_highlight_color rgba(80, 80, 00, 0.80);\nCustomIDAMemo\x7b\n    qproperty-line-bg-highlight: $\x7bdarcula_highlight_color\x7d;\n\x7d" =
        some "CustomIDAMemo\x7b\n    qproperty-line-bg-highlight: rgba(80, 80, 00, 0.80);\n\x7d" :=
  ⟨by decide, parse_template_c7_eval⟩

/-- C7 as amended: parse_template never surfaces an error for a missing
blank line; when no line of the document is blank the split index stays
at its initial value 0, so the first line alone is treated as the header
and every later line is rendered as body, output being produced for the
document (never an error, the result differing from a failure for every
fuel at which the variable loops return). -/
theorem parse_template_missing_blank_c7 :
    (∀ (content : String) (fuel : ℕ),
        (∀ l ∈ pySplitlines content, pyStrip l ≠ "") →
        parse_template_fuel fuel content =
          parseTemplateBody fuel content ((pySplitlines content).drop 1))
    ∧ parse_template_fuel 64
        "@def darcula_highlight_color rgba(80, 80, 00, 0.80);\nCustomIDAMemo\x7b\n    qproperty-line-bg-highlight: $\x7bdarcula_highlight_color\x7d;\n\x7d" =
        some "CustomIDAMemo\x7b\n    qproperty-line-bg-highlight: rgba(80, 80, 00, 0.80);\n\x7d" := by
  constructor
  · intro content fuel h
    unfold parse_template_fuel
    dsimp only
    rw [findFirstBlankGo_zero _ 0 h]
  · exact parse_template_c7_eval

/-- Witness for C7 at the blank-line-free document of the repository
test suite. -/
theorem parse_template_missing_blank_c7_witness :
    parse_template_fuel 64
      "@def darcula_highlight_color rgba(80, 80, 00, 0.80);\nCustomIDAMemo\x7b\n    qproperty-line-bg-highlight: $\x7bdarcula_highlight_color\x7d;\n\x7d" =
      parseTemplateBody 64
        "@def darcula_highlight_color rgba(80, 80, 00, 0.80);\nCustomIDAMemo\x7b\n    qproperty-line-bg-highlight: $\x7bdarcula_highlight_color\x7d;\n\x7d"
        ((pySplitlines
          "@def darcula_highlight_color rgba(80, 80, 00, 0.80);\nCustomIDAMemo\x7b\n    qproperty-line-bg-highlight: $\x7bdarcula_highlight_color\x7d;\n\x7d").drop 1) :=
  parse_template_missing_blank_c7.1 _ 64 (by decide)

-- ---------------------------------------------------------------------------
-- Claim C2: fract lemmas and hue region evaluations
-- ---------------------------------------------------------------------------

theorem ratFloor_eq_floor (q : ℚ) : ratFloor q = ⌊q⌋ := Rat.floor_def.symm

theorem pyMod1_eq_fract (q : ℚ) : pyMod1 q = Int.fract q := by
  unfold pyMod1
  rw [ratFloor_eq_floor]
  rfl

theorem pyMod1_eq_self {x : ℚ} (h0 : 0 ≤ x) (h1 : x < 1) : pyMod1 x = x := by
  rw [pyMod1_eq_fract]
  exact Int.fract_eq_self.mpr ⟨h0, h1⟩

theorem pyMod1_intCast_add (x : ℚ) (n : ℤ) : pyMod1 (x + n) = pyMod1 x := by
  rw [pyMod1_eq_fract, pyMod1_eq_fract]
  exact Int.fract_add_int x n

theorem pyMod1_pyMod1_add (x y : ℚ) : pyMod1 (pyMod1 x + y) = pyMod1 (x + y) := by
  rw [pyMod1_eq_fract x]
  have harg : Int.fract x + y = (x + y) + ((-⌊x⌋ : ℤ) : ℚ) := by
    simp only [Int.fract]
    push_cast
    ring
  rw [harg, pyMod1_intCast_add]

theorem hlsV_pyMod1_shift (m1 m2 x y : ℚ) :
    hlsV m1 m2 (pyMod1 x + y) = hlsV m1 m2 (x + y) := by
  unfold hlsV
  rw [pyMod1_pyMod1_add]

theorem hlsV_pyMod1_sub (m1 m2 x y : ℚ) :
    hlsV m1 m2 (pyMod1 x - y) = hlsV m1 m2 (x - y) := by
  rw [sub_eq_add_neg, sub_eq_add_neg, hlsV_pyMod1_shift]

theorem hlsV_pyMod1_self (m1 m2 x : ℚ) : hlsV m1 m2 (pyMod1 x) = hlsV m1 m2 x := by
  have h := hlsV_pyMod1_shift m1 m2 x 0
  simpa using h

theorem hlsV_add_one (m1 m2 x : ℚ) : hlsV m1 m2 (x + 1) = hlsV m1 m2 x := by
  unfold hlsV
  rw [show (x + 1 : ℚ) = x + ((1 : ℤ) : ℚ) by push_cast; ring, pyMod1_intCast_add]

theorem hlsV_sub_one (m1 m2 x : ℚ) : hlsV m1 m2 (x - 1) = hlsV m1 m2 x := by
  unfold hlsV
  rw [show (x - 1 : ℚ) = x + ((-1 : ℤ) : ℚ) by push_cast; ring, pyMod1_intCast_add]

theorem hlsV_region1 {m1 m2 hue : ℚ} (h0 : 0 ≤ hue) (h1 : hue < 1/6) :
    hlsV m1 m2 hue = m1 + (m2 - m1) * hue * 6 := by
  unfold hlsV
  rw [pyMod1_eq_self h0 (by linarith), if_pos h1]

theorem hlsV_region2 {m1 m2 hue : ℚ} (h0 : 1/6 ≤ hue) (h1 : hue < 1/2) :
    hlsV m1 m2 hue = m2 := by
  unfold hlsV
  rw [pyMod1_eq_self (by linarith) (by linarith), if_neg (by linarith), if_pos h1]

theorem hlsV_region3 {m1 m2 hue : ℚ} (h0 : 1/2 ≤ hue) (h1 : hue < 2/3) :
    hlsV m1 m2 hue = m1 + (m2 - m1) * (2/3 - hue) * 6 := by
  unfold hlsV
  rw [pyMod1_eq_self (by linarith) (by linarith), if_neg (by linarith),
    if_neg (by linarith), if_pos h1]

theorem hlsV_region4 {m1 m2 hue : ℚ} (h0 : 2/3 ≤ hue) (h1 : hue < 1) :
    hlsV m1 m2 hue = m1 := by
  unfold hlsV
  rw [pyMod1_eq_self (by linarith) h1, if_neg (by linarith), if_neg (by linarith),
    if_neg (by linarith)]

theorem hlsV_tlow {m1 m2 t : ℚ} (h0 : 0 ≤ t) (h1 : t ≤ 1) :
    hlsV m1 m2 (t/6) = m1 + (m2 - m1) * t := by
  rcases lt_or_eq_of_le h1 with h | h
  · rw [hlsV_region1 (by linarith) (by linarith)]
    ring
  · subst h
    rw [hlsV_region2 (by norm_num) (by norm_num)]
    ring

theorem hlsV_tD {m1 m2 t : ℚ} (h0 : 0 ≤ t) (h1 : t ≤ 1) :
    hlsV m1 m2 (t/6 + 1/6) = m2 :=
  hlsV_region2 (by linarith) (by linarith)

theorem hlsV_tmid {m1 m2 t : ℚ} (h0 : 0 ≤ t) (h1 : t ≤ 1) :
    hlsV m1 m2 (t/6 + 1/3) = m2 := by
  rcases lt_or_eq_of_le h1 with h | h
  · exact hlsV_region2 (by linarith) (by linarith)
  · subst h
    rw [hlsV_region3 (by norm_num) (by norm_num)]
    ring

theorem hlsV_tF {m1 m2 t : ℚ} (h0 : 0 ≤ t) (h1 : t ≤ 1) :
    hlsV m1 m2 (t/6 + 1/2) = m1 + (m2 - m1) * (1 - t) := by
  rcases lt_or_eq_of_le h1 with h | h
  · rw [hlsV_region3 (by linarith) (by linarith)]
    ring
  · subst h
    rw [hlsV_region4 (by norm_num) (by norm_num)]
    ring

theorem hlsV_thigh {m1 m2 t : ℚ} (h0 : 0 ≤ t) (h1 : t ≤ 1) :
    hlsV m1 m2 (t/6 + 2/3) = m1 :=
  hlsV_region4 (by linarith) (by linarith)

theorem hlsV_tE {m1 m2 t : ℚ} (h0 : 0 ≤ t) (h1 : t < 1) :
    hlsV m1 m2 (t/6 + 5/6) = m1 :=
  hlsV_region4 (by linarith) (by linarith)

theorem hls_to_rgb_eval (minc maxc h : ℚ) (h0m : 0 ≤ minc) (hlt : minc < maxc)
    (h1M : maxc ≤ 1) :
    hls_to_rgb h ((minc + maxc) / 2)
      (if (minc + maxc) / 2 ≤ 1/2 then (maxc - minc) / (maxc + minc)
       else (maxc - minc) / (2 - maxc - minc)) =
    (hlsV minc maxc (h + 1/3), hlsV minc maxc h, hlsV minc maxc (h - 1/3)) := by
  have hsum : 0 < maxc + minc := by linarith
  have h2sum : 0 < 2 - maxc - minc := by linarith
  have hs : 0 < (if (minc + maxc) / 2 ≤ 1/2 then (maxc - minc) / (maxc + minc)
      else (maxc - minc) / (2 - maxc - minc)) := by
    by_cases hl : (minc + maxc) / 2 ≤ 1/2
    · rw [if_pos hl]
      exact div_pos (by linarith) hsum
    · rw [if_neg hl]
      exact div_pos (by linarith) h2sum
  unfold hls_to_rgb
  rw [if_neg (ne_of_gt hs)]
  dsimp only
  have hm2 : (if (minc + maxc) / 2 ≤ 1/2 then
      ((minc + maxc) / 2) *
        (1 + if (minc + maxc) / 2 ≤ 1/2 then (maxc - minc) / (maxc + minc)
             else (maxc - minc) / (2 - maxc - minc))
    else
      (minc + maxc) / 2 +
        (if (minc + maxc) / 2 ≤ 1/2 then (maxc - minc) / (maxc + minc)
         else (maxc - minc) / (2 - maxc - minc)) -
        ((minc + maxc) / 2) *
          (if (minc + maxc) / 2 ≤ 1/2 then (maxc - minc) / (maxc + minc)
           else (maxc - minc) / (2 - maxc - minc))) = maxc := by
    by_cases hl : (minc + maxc) / 2 ≤ 1/2
    · rw [if_pos hl, if_pos hl]
      field_simp
      ring
    · rw [if_neg hl, if_neg hl]
      field_simp
      ring
  rw [hm2]
  have hm1 : 2 * ((minc + maxc) / 2) - maxc = minc := by ring
  rw [hm1]

theorem rgb_hls_round_trip (r g b : ℚ) (h0r : 0 ≤ r) (h1r : r ≤ 1) (h0g : 0 ≤ g)
    (h1g : g ≤ 1) (h0b : 0 ≤ b) (h1b : b ≤ 1) :
    hls_to_rgb (rgb_to_hls r g b).1 (rgb_to_hls r g b).2.1 (rgb_to_hls r g b).2.2 =
      (r, g, b) := by
  have hrM : r ≤ max r (max g b) := le_max_left _ _
  have hgM : g ≤ max r (max g b) := le_trans (le_max_left _ _) (le_max_right _ _)
  have hbM : b ≤ max r (max g b) := le_trans (le_max_right _ _) (le_max_right _ _)
  have hmr : min r (min g b) ≤ r := min_le_left _ _
  have hmg : min r (min g b) ≤ g := le_trans (min_le_right _ _) (min_le_left _ _)
  have hmb : min r (min g b) ≤ b := le_trans (min_le_right _ _) (min_le_right _ _)
  have h0m : 0 ≤ min r (min g b) := le_min h0r (le_min h0g h0b)
  have h1M : max r (max g b) ≤ 1 := max_le h1r (max_le h1g h1b)
  by_cases hgray : min r (min g b) = max r (max g b)
  · have hrm : r = min r (min g b) := le_antisymm (by rw [hgray]; exact hrM) hmr
    have hgm : g = min r (min g b) := le_antisymm (by rw [hgray]; exact hgM) hmg
    have hbm : b = min r (min g b) := le_antisymm (by rw [hgray]; exact hbM) hmb
    unfold rgb_to_hls
    rw [if_pos hgray]
    dsimp only
    unfold hls_to_rgb
    rw [if_pos rfl]
    rw [← hgray]
    rw [show (min r (min g b) + min r (min g b)) / 2 = min r (min g b) by ring]
    simp only [Prod.mk.injEq]
    exact ⟨hrm.symm, hgm.symm, hbm.symm⟩
  · have hmM : min r (min g b) < max r (max g b) :=
      lt_of_le_of_ne (le_trans hmr hrM) hgray
    unfold rgb_to_hls
    rw [if_neg hgray]
    dsimp only
    rw [hls_to_rgb_eval _ _ _ h0m hmM h1M]
    rw [hlsV_pyMod1_shift, hlsV_pyMod1_sub, hlsV_pyMod1_self]
    by_cases hrmax : r = max r (max g b)
    · rw [if_pos hrmax]
      by_cases hgb : b ≤ g
      · -- red is max, blue is min
        have hminc : min r (min g b) = b := by
          rw [min_eq_right hgb]
          exact min_eq_right (by rw [hrmax]; exact hbM)
        rw [hminc, ← hrmax]
        have hd : (0:ℚ) < r - b := by
          have := hmM
          rw [hminc, ← hrmax] at this
          linarith
        have hne : r - b ≠ 0 := ne_of_gt hd
        have hgr : g ≤ r := by rw [hrmax]; exact hgM
        have ht0 : 0 ≤ (g - b) / (r - b) := div_nonneg (by linarith) (le_of_lt hd)
        have ht1 : (g - b) / (r - b) ≤ 1 := by
          rw [div_le_one hd]
          linarith
        have harg : ((r - b) / (r - b) - (r - g) / (r - b)) / 6 =
            (g - b) / (r - b) / 6 := by
          rw [div_sub_div_same]
          ring_nf
        rw [harg]
        simp only [Prod.mk.injEq]
        refine ⟨hlsV_tmid ht0 ht1, ?_, ?_⟩
        · rw [hlsV_tlow ht0 ht1]
          field_simp
        · rw [show (g - b) / (r - b) / 6 - 1/3 =
              ((g - b) / (r - b) / 6 + 2/3) - 1 by ring, hlsV_sub_one]
          exact hlsV_thigh ht0 ht1
      · -- red is max, green is min
        have hbg : g ≤ b := le_of_lt (not_le.mp hgb)
        have hminc : min r (min g b) = g := by
          rw [min_eq_left hbg]
          exact min_eq_right (by rw [hrmax]; exact hgM)
        rw [hminc, ← hrmax]
        have hd : (0:ℚ) < r - g := by
          have := hmM
          rw [hminc, ← hrmax] at this
          linarith
        have hne : r - g ≠ 0 := ne_of_gt hd
        have hbr : b ≤ r := by rw [hrmax]; exact hbM
        have ht0 : 0 ≤ (r - b) / (r - g) := div_nonneg (by linarith) (le_of_lt hd)
        have ht1 : (r - b) / (r - g) < 1 := by
          rw [div_lt_one hd]
          have := not_le.mp hgb
          linarith
        have harg : ((r - b) / (r - g) - (r - g) / (r - g)) / 6 =
            (r - b) / (r - g) / 6 - 1/6 := by
          rw [div_self hne]
          ring
        rw [harg]
        simp only [Prod.mk.injEq]
        refine ⟨?_, ?_, ?_⟩
        · rw [show (r - b) / (r - g) / 6 - 1/6 + 1/3 =
              (r - b) / (r - g) / 6 + 1/6 by ring]
          exact hlsV_tD ht0 (le_of_lt ht1)
        · rw [show (r - b) / (r - g) / 6 - 1/6 =
              ((r - b) / (r - g) / 6 + 5/6) - 1 by ring, hlsV_sub_one]
          exact hlsV_tE ht0 ht1
        · rw [show (r - b) / (r - g) / 6 - 1/6 - 1/3 =
              ((r - b) / (r - g) / 6 + 1/2) - 1 by ring, hlsV_sub_one]
          rw [hlsV_tF ht0 (le_of_lt ht1)]
          field_simp
    · rw [if_neg hrmax]
      by_cases hgmax : g = max r (max g b)
      · rw [if_pos hgmax]
        by_cases hrb : r ≤ b
        · -- green is max, red is min
          have hminc : min r (min g b) = r :=
            min_eq_left (le_min (by rw [hgmax]; exact hrM) hrb)
          rw [hminc, ← hgmax]
          have hd : (0:ℚ) < g - r := by
            have := hmM
            rw [hminc, ← hgmax] at this
            linarith
          have hne : g - r ≠ 0 := ne_of_gt hd
          have hbg : b ≤ g := by rw [hgmax]; exact hbM
          have ht0 : 0 ≤ (b - r) / (g - r) := div_nonneg (by linarith) (le_of_lt hd)
          have ht1 : (b - r) / (g - r) ≤ 1 := by
            rw [div_le_one hd]
            linarith
          have harg : (2 + (g - r) / (g - r) - (g - b) / (g - r)) / 6 =
              (b - r) / (g - r) / 6 + 1/3 := by
            rw [div_self hne]
            field_simp
            ring
          rw [harg]
          simp only [Prod.mk.injEq]
          refine ⟨?_, ?_, ?_⟩
          · rw [show (b - r) / (g - r) / 6 + 1/3 + 1/3 =
                (b - r) / (g - r) / 6 + 2/3 by ring]
            exact hlsV_thigh ht0 ht1
          · exact hlsV_tmid ht0 ht1
          · rw [show (b - r) / (g - r) / 6 + 1/3 - 1/3 =
                (b - r) / (g - r) / 6 by ring]
            rw [hlsV_tlow ht0 ht1]
            field_simp
        · -- green is max, blue is min
          have hbr : b ≤ r := le_of_lt (not_le.mp hrb)
          have hminc : min r (min g b) = b := by
            rw [min_eq_right (by rw [hgmax]; exact hbM : b ≤ g)]
            exact min_eq_right hbr
          rw [hminc, ← hgmax]
          have hd : (0:ℚ) < g - b := by
            have := hmM
            rw [hminc, ← hgmax] at this
            linarith
          have hne : g - b ≠ 0 := ne_of_gt hd
          have hrg : r < g := by
            have := lt_of_le_of_ne hrM hrmax
            rw [← hgmax] at this
            exact this
          have ht0 : 0 ≤ (g - r) / (g - b) := div_nonneg (by linarith) (le_of_lt hd)
          have ht1 : (g - r) / (g - b) < 1 := by
            rw [div_lt_one hd]
            have := not_le.mp hrb
            linarith
          have harg : (2 + (g - r) / (g - b) - (g - b) / (g - b)) / 6 =
              (g - r) / (g - b) / 6 + 1/6 := by
            rw [div_self hne]
            ring
          rw [harg]
          simp only [Prod.mk.injEq]
          refine ⟨?_, ?_, ?_⟩
          · rw [show (g - r) / (g - b) / 6 + 1/6 + 1/3 =
                (g - r) / (g - b) / 6 + 1/2 by ring]
            rw [hlsV_tF ht0 (le_of_lt ht1)]
            field_simp
          · exact hlsV_tD ht0 (le_of_lt ht1)
          · rw [show (g - r) / (g - b) / 6 + 1/6 - 1/3 =
                ((g - r) / (g - b) / 6 + 5/6) - 1 by ring, hlsV_sub_one]
            exact hlsV_tE ht0 ht1
      · rw [if_neg hgmax]
        have hbmax : b = max r (max g b) := by
          rcases max_choice r (max g b) with h | h
          · exact absurd h.symm hrmax
          · rcases max_choice g b with h2 | h2
            · exact absurd (h.trans h2).symm hgmax
            · exact (h.trans h2).symm
        have hrM' : r < max r (max g b) := lt_of_le_of_ne hrM hrmax
        have hgM' : g < max r (max g b) := lt_of_le_of_ne hgM hgmax
        by_cases hgr : g ≤ r
        · -- blue is max, green is min
          have hminc : min r (min g b) = g := by
            rw [min_eq_left (by rw [hbmax]; exact le_of_lt hgM' : g ≤ b)]
            exact min_eq_right hgr
          rw [hminc, ← hbmax]
          have hd : (0:ℚ) < b - g := by
            have := hmM
            rw [hminc, ← hbmax] at this
            linarith
          have hne : b - g ≠ 0 := ne_of_gt hd
          have hrb : r < b := by
            have := hrM'
            rw [← hbmax] at this
            exact this
          have ht0 : 0 ≤ (r - g) / (b - g) := div_nonneg (by linarith) (le_of_lt hd)
          have ht1 : (r - g) / (b - g) < 1 := by
            rw [div_lt_one hd]
            linarith
          have harg : (4 + (b - g) / (b - g) - (b - r) / (b - g)) / 6 =
              (r - g) / (b - g) / 6 + 2/3 := by
            rw [div_self hne]
            field_simp
            ring
          rw [harg]
          simp only [Prod.mk.injEq]
          refine ⟨?_, ?_, ?_⟩
          · rw [show (r - g) / (b - g) / 6 + 2/3 + 1/3 =
                (r - g) / (b - g) / 6 + 1 by ring, hlsV_add_one]
            rw [hlsV_tlow ht0 (le_of_lt ht1)]
            field_simp
          · exact hlsV_thigh ht0 (le_of_lt ht1)
          · rw [show (r - g) / (b - g) / 6 + 2/3 - 1/3 =
                (r - g) / (b - g) / 6 + 1/3 by ring]
            exact hlsV_tmid ht0 (le_of_lt ht1)
        · -- blue is max, red is min
          have hrg : r ≤ g := le_of_lt (not_le.mp hgr)
          have hminc : min r (min g b) = r := by
            rw [min_eq_left (by rw [hbmax]; exact le_of_lt hgM' : g ≤ b)]
            exact min_eq_left hrg
          rw [hminc, ← hbmax]
          have hd : (0:ℚ) < b - r := by
            have := hmM
            rw [hminc, ← hbmax] at this
            linarith
          have hne : b - r ≠ 0 := ne_of_gt hd
          have ht0 : 0 ≤ (b - g) / (b - r) := by
            have hgb : g < b := by
              have := hgM'
              rw [← hbmax] at this
              exact this
            exact div_nonneg (by linarith) (le_of_lt hd)
          have ht1 : (b - g) / (b - r) < 1 := by
            rw [div_lt_one hd]
            have := not_le.mp hgr
            linarith
          have harg : (4 + (b - g) / (b - r) - (b - r) / (b - r)) / 6 =
              (b - g) / (b - r) / 6 + 1/2 := by
            rw [div_self hne]
            ring
          rw [harg]
          simp only [Prod.mk.injEq]
          refine ⟨?_, ?_, ?_⟩
          · rw [show (b - g) / (b - r) / 6 + 1/2 + 1/3 =
                (b - g) / (b - r) / 6 + 5/6 by ring]
            exact hlsV_tE ht0 ht1
          · rw [hlsV_tF ht0 (le_of_lt ht1)]
            field_simp
          · rw [show (b - g) / (b - r) / 6 + 1/2 - 1/3 =
                (b - g) / (b - r) / 6 + 1/6 by ring]
            exact hlsV_tD ht0 (le_of_lt ht1)

theorem rgb_to_hls_s_l_bounds (r g b : ℚ) (h0r : 0 ≤ r) (h1r : r ≤ 1) (h0g : 0 ≤ g)
    (h1g : g ≤ 1) (h0b : 0 ≤ b) (h1b : b ≤ 1) :
    0 ≤ (rgb_to_hls r g b).2.2 ∧ (rgb_to_hls r g b).2.2 ≤ 1 ∧
    0 ≤ (rgb_to_hls r g b).2.1 ∧ (rgb_to_hls r g b).2.1 ≤ 1 := by
  have hrM : r ≤ max r (max g b) := le_max_left _ _
  have hmr : min r (min g b) ≤ r := min_le_left _ _
  have h0m : 0 ≤ min r (min g b) := le_min h0r (le_min h0g h0b)
  have h1M : max r (max g b) ≤ 1 := max_le h1r (max_le h1g h1b)
  have hl0 : 0 ≤ (min r (min g b) + max r (max g b)) / 2 := by
    have : (0:ℚ) ≤ max r (max g b) := le_trans h0m (le_trans hmr hrM)
    linarith
  have hl1 : (min r (min g b) + max r (max g b)) / 2 ≤ 1 := by
    have : min r (min g b) ≤ 1 := le_trans (le_trans hmr hrM) h1M
    linarith
  unfold rgb_to_hls
  by_cases hgray : min r (min g b) = max r (max g b)
  · rw [if_pos hgray]
    exact ⟨le_refl 0, by norm_num, hl0, hl1⟩
  · rw [if_neg hgray]
    dsimp only
    have hmM : min r (min g b) < max r (max g b) :=
      lt_of_le_of_ne (le_trans hmr hrM) hgray
    refine ⟨?_, ?_, hl0, hl1⟩
    · by_cases hl : (min r (min g b) + max r (max g b)) / 2 ≤ 1/2
      · rw [if_pos hl]
        exact div_nonneg (by linarith) (by linarith [le_trans h0m hmr, le_trans hmr hrM])
      · rw [if_neg hl]
        exact div_nonneg (by linarith) (by linarith)
    · by_cases hl : (min r (min g b) + max r (max g b)) / 2 ≤ 1/2
      · rw [if_pos hl]
        rw [div_le_one (by linarith [le_trans h0m hmr, le_trans hmr hrM] :
          (0:ℚ) < max r (max g b) + min r (min g b))]
        linarith
      · rw [if_neg hl]
        rw [div_le_one (by linarith : (0:ℚ) < 2 - max r (max g b) - min r (min g b))]
        linarith

theorem three_way_adjustment_self (c : RGB) (h0r : 0 ≤ c.r) (h1r : c.r ≤ 1)
    (h0g : 0 ≤ c.g) (h1g : c.g ≤ 1) (h0b : 0 ≤ c.b) (h1b : c.b ≤ 1) :
    three_way_adjustment c c c = c := by
  obtain ⟨r, g, b⟩ := c
  obtain ⟨hs0, hs1, hl0, hl1⟩ := rgb_to_hls_s_l_bounds r g b h0r h1r h0g h1g h0b h1b
  unfold three_way_adjustment
  dsimp only
  rw [if_neg (lt_irrefl _), if_neg (lt_irrefl _)]
  dsimp only
  rw [show (RGB.mk r g b).Hsl.2.1 + ((RGB.mk r g b).Hsl.2.1 - (RGB.mk r g b).Hsl.2.1)
      * (1/4) = (RGB.mk r g b).Hsl.2.1 by ring]
  rw [show (RGB.mk r g b).Hsl.2.2 + ((RGB.mk r g b).Hsl.2.2 - (RGB.mk r g b).Hsl.2.2)
      * (1/4) = (RGB.mk r g b).Hsl.2.2 by ring]
  have hsv : (RGB.mk r g b).Hsl.2.1 = (rgb_to_hls r g b).2.2 := rfl
  have hlv : (RGB.mk r g b).Hsl.2.2 = (rgb_to_hls r g b).2.1 := rfl
  rw [hsv, hlv]
  rw [min_eq_right hs1, max_eq_right hs0, min_eq_right hl1, max_eq_right hl0]
  show RGB.from_hsl (rgb_to_hls r g b).1 (rgb_to_hls r g b).2.2 (rgb_to_hls r g b).2.1 =
    RGB.mk r g b
  unfold RGB.from_hsl
  rw [rgb_hls_round_trip r g b h0r h1r h0g h1g h0b h1b]

-- ---------------------------------------------------------------------------
-- Claim C2
-- ---------------------------------------------------------------------------

/-- C2: for every queried color that is an exact key of the reverse
index of the source instance but for which no name sharing that color
has a color in the target instance, the result of remap_color_rgb is the
value of the nearest-neighbour fallback against the own palette of the
source followed by the three-way perceptual HSL adjustment with that
fallback as the remapped color: the nearest stored color exists, the
recursive remap of it returns a value, and the overall result equals the
adjustment applied to them.  (The queried color is an exact key, so the
nearest stored color is the queried color itself at distance zero, the
recursive call returns it unchanged, and the adjustment of a color
against itself is exact in rational arithmetic, so the identity of the
returned value with the adjusted fallback holds as the claim states.) -/
theorem remap_exact_no_target_c2 (self other : Instance) (col : RGB)
    (keys : List String)
    (h1 : dictGet self.inverted_colors col = some keys)
    (h2 : ∀ k ∈ keys, dictGet other.colors k = none)
    (hr0 : 0 ≤ col.r) (hr1 : col.r ≤ 1) (hg0 : 0 ≤ col.g) (hg1 : col.g ≤ 1)
    (hb0 : 0 ≤ col.b) (hb1 : col.b ≤ 1) :
    ∃ closest remapped,
      nearest_stored self.inverted_colors col = some closest
      ∧ remap_color_rgb 1 self closest other true = some remapped
      ∧ remap_color_rgb 2 self col other false =
          some (three_way_adjustment closest col remapped) := by
  have hclosest : nearest_stored self.inverted_colors col = some col :=
    nearest_stored_self (dictGet_mem_keys _ _ _ h1)
  have hopts : buildOptions other keys = [] := buildOptions_nil h2
  have hexact : ∀ (fuel : ℕ) (bo : Bool),
      remap_color_rgb (fuel + 1) self col other bo = some col := by
    intro fuel bo
    show remap_color_rgb (Nat.succ fuel) self col other bo = some col
    unfold remap_color_rgb
    rw [h1]
    dsimp only
    rw [hopts]
  refine ⟨col, col, hclosest, hexact 0 true, ?_⟩
  rw [hexact 1 false]
  rw [three_way_adjustment_self col hr0 hr1 hg0 hg1 hb0 hb1]

/-- Witness for C2: a one-key source instance queried at its own stored
color against an empty target instance. -/
theorem remap_exact_no_target_c2_witness :
    ∃ closest remapped,
      nearest_stored [(⟨1/5, 2/5, 3/5⟩, ["k"])] ⟨1/5, 2/5, 3/5⟩ = some closest
      ∧ remap_color_rgb 1 ⟨[("k", ⟨⟨1/5, 2/5, 3/5⟩, 1⟩)], [(⟨1/5, 2/5, 3/5⟩, ["k"])]⟩
          closest emptyInstance true = some remapped
      ∧ remap_color_rgb 2 ⟨[("k", ⟨⟨1/5, 2/5, 3/5⟩, 1⟩)], [(⟨1/5, 2/5, 3/5⟩, ["k"])]⟩
          ⟨1/5, 2/5, 3/5⟩ emptyInstance false =
          some (three_way_adjustment closest ⟨1/5, 2/5, 3/5⟩ remapped) :=
  remap_exact_no_target_c2
    ⟨[("k", ⟨⟨1/5, 2/5, 3/5⟩, 1⟩)], [(⟨1/5, 2/5, 3/5⟩, ["k"])]⟩ emptyInstance
    ⟨1/5, 2/5, 3/5⟩ ["k"] (by decide) (by decide)
    (by norm_num) (by norm_num) (by norm_num) (by norm_num) (by norm_num) (by norm_num)
